import Mathlib

/-! # UnitTestCICD: the logging registry and the `utils` helpers

A shallow embedding of `include/logger.h`, `src/logger.cpp` and
`include/utils.h`, followed by the properties proved about it.

Conventions of the embedding:

* a method that mutates its object takes the object and returns the new one;
  a method that can raise returns the outcome (`Except Exception Unit`)
  together with the state the program is in when the call is left, so that
  what a raising call has already changed stays visible;
* `std::unique_ptr<LogHandler>` is `Option LogHandler` (`none` is `nullptr`);
* `std::map<std::string, _>` is a list of pairs, kept in key order;
* an output stream is the sequence of characters written to it;
* the system clock is an oracle `clock : Nat → utils.time_point`, the value of
  the `k`-th reading, and the world counts the readings taken so far.
-/

set_option autoImplicit false

/-! ## `utils.h` -/

namespace utils

/-- The fields of `std::tm` that the time-stamp format reads. -/
structure tm where
  tm_sec : Nat
  tm_min : Nat
  tm_hour : Nat
  tm_mday : Nat
  tm_mon : Nat
  tm_year : Nat
  deriving DecidableEq, Repr

/-- One reading of `system_clock::now()`: the calendar time that
`utils::localtime(system_clock::to_time_t(now))` yields for it, and
`duration_cast<std::chrono::microseconds>(now.time_since_epoch()).count()`. -/
structure time_point where
  local_time : tm
  micros : Nat
  deriving DecidableEq, Repr

/-- A two-digit, zero-padded field of `std::put_time` (`%d %m %H %M %S`). -/
def put2 (n : Nat) : String :=
  if n < 10 then "0" ++ toString n else toString n

/-- The text of `std::put_time(&local_time, "%d-%m-%Y %H:%M:%S")`. -/
def put_time (t : tm) : String :=
  put2 t.tm_mday ++ "-" ++ put2 (t.tm_mon + 1) ++ "-" ++ toString (t.tm_year + 1900)
    ++ " " ++ put2 t.tm_hour ++ ":" ++ put2 t.tm_min ++ ":" ++ put2 t.tm_sec

/-- The fractional field of `utils::timestamp`: in the source `milliseconds`
is an alias of `std::chrono::microseconds`, so the remainder is taken of a
microsecond count modulo `1000ms = 1000000us`, and `std::to_string` prints it
without padding. -/
def fraction (now : time_point) : String :=
  let millisec := now.micros % 1000000
  toString millisec

/-- The function `utils::timestamp`, on the reading `now` of the clock. -/
def timestamp (now : time_point) : String :=
  put_time now.local_time ++ ("." ++ fraction now)

end utils

/-! ## `logger.h` / `logger.cpp` -/

namespace logging

/-- The enumeration `enum class log_level : uint8_t`. -/
inductive log_level where
  | none
  | debug
  | info
  | warning
  | error
  | fatal
  deriving DecidableEq, Repr

/-- The underlying `uint8_t` value of an enumerator, which `>` compares. -/
def log_level.val : log_level → Nat
  | .none => 0
  | .debug => 1
  | .info => 2
  | .warning => 3
  | .error => 4
  | .fatal => 5

/-- The function `to_string(const log_level)`. -/
def to_string : log_level → String
  | .debug => "DEBUG"
  | .info => "INFO"
  | .warning => "WARNING"
  | .error => "ERROR"
  | .fatal => "FATAL"
  | .none => ""

/-- The function `is_loggable(verbosity, msg_severity)`. -/
def is_loggable (verbosity msg_severity : log_level) : Bool :=
  decide (verbosity.val > log_level.none.val) && !decide (verbosity.val > msg_severity.val)

/-- The exceptions the code raises (`what` is the message). -/
inductive Exception where
  | invalid_argument (what : String)
  | domain_error (what : String)
  | runtime_error (what : String)
  deriving DecidableEq, Repr

/-- The result of a call that returns `void`: returned, or raised. -/
abbrev Outcome := Except Exception Unit

/-- Whether a call raised. -/
def raised : Outcome → Bool
  | .ok _ => false
  | .error _ => true

/-- The struct `HandlerMeta`. -/
structure HandlerMeta where
  name : String
  level : log_level
  deriving DecidableEq, Repr

/-- A `std::ofstream`: the file it was opened on and the characters written
through it since. -/
structure ofstream where
  path : String
  written : String
  deriving DecidableEq, Repr

/-- What lies outside the handlers: the characters written to `std::cout`
and the number of readings of the system clock taken so far. -/
structure World where
  cout : String
  ticks : Nat
  deriving DecidableEq, Repr

/-- The classes that implement the interface `LogHandler`: the two of the
repository with their own members (the mutexes are left out), and any other
subclass, given by its override of the pure virtual `log` (a function of the
handler's verbosity, the message and the severity that returns or raises). -/
inductive Strategy where
  | ConsoleHandler
  | FileHandler (m_fstream : ofstream)
  | Derived (log : log_level → String → log_level → Outcome)

/-- An object of class `LogHandler`: the members of the base class and the
strategy behind it. -/
structure LogHandler where
  m_name : String
  m_level : log_level
  strategy : Strategy

/-- The method `LogHandler::get_name`. -/
def LogHandler.get_name (self : LogHandler) : String :=
  self.m_name

/-- The method `LogHandler::get_level`. -/
def LogHandler.get_level (self : LogHandler) : log_level :=
  self.m_level

/-- The method `LogHandler::set_level`. -/
def LogHandler.set_level (self : LogHandler) (level : log_level) : LogHandler :=
  { self with m_level := level }

/-- The method `ConsoleHandler::log`: the world after the call. -/
def ConsoleHandler.log (clock : Nat → utils.time_point) (self : LogHandler) (w : World)
    (message : String) (severity : log_level) : World :=
  let verbosity := self.get_level
  if !is_loggable verbosity severity then w
  else
    { cout := w.cout ++ utils.timestamp (clock w.ticks)
                ++ " - (" ++ to_string severity ++ ")\t: "
                ++ message
                ++ "\n"
      ticks := w.ticks + 1 }

/-- The method `FileHandler::log`: the member `m_fstream` and the world after
the call. -/
def FileHandler.log (clock : Nat → utils.time_point) (self : LogHandler) (m_fstream : ofstream)
    (w : World) (message : String) (severity : log_level) : ofstream × World :=
  let verbosity := self.get_level
  if !is_loggable verbosity severity then (m_fstream, w)
  else
    ({ m_fstream with
        written := m_fstream.written ++ utils.timestamp (clock w.ticks)
                    ++ " - (" ++ to_string severity ++ ")\t: "
                    ++ message
                    ++ "\n" },
     { w with ticks := w.ticks + 1 })

/-- The virtual call `handler->log(message, severity)`: the outcome, the
handler and the world after it. -/
def LogHandler.log (clock : Nat → utils.time_point) (self : LogHandler) (w : World)
    (message : String) (severity : log_level) : Outcome × LogHandler × World :=
  match self.strategy with
  | .ConsoleHandler => (.ok (), self, ConsoleHandler.log clock self w message severity)
  | .FileHandler m_fstream =>
    let r := FileHandler.log clock self m_fstream w message severity
    (.ok (), { self with strategy := .FileHandler r.1 }, r.2)
  | .Derived log => (log self.get_level message severity, self, w)

/-- The sink a handler of the repository writes to: `std::cout` for a
`ConsoleHandler`, its own stream for a `FileHandler`. -/
def LogHandler.sink (self : LogHandler) (w : World) : String :=
  match self.strategy with
  | .ConsoleHandler => w.cout
  | .FileHandler m_fstream => m_fstream.written
  | .Derived _ => ""

/-- Whether the handler is one of the two classes of the repository. -/
def LogHandler.builtin (self : LogHandler) : Bool :=
  match self.strategy with
  | .ConsoleHandler => true
  | .FileHandler _ => true
  | .Derived _ => false

/-! ### `std::map<std::string, std::unique_ptr<LogHandler>>` -/

/-- The entries of the map, in key order. -/
abbrev HandlerMap := List (String × LogHandler)

/-- The order `std::less<std::string>` of the keys: lexicographic on the
character sequences. -/
abbrev key_lt (a b : String) : Prop := a.data < b.data

/-- The call `m.find(name)`: the mapped value (`none` for `m.cend()`). -/
def HandlerMap.find : HandlerMap → String → Option LogHandler
  | [], _ => none
  | (k, v) :: rest, name => if k = name then some v else HandlerMap.find rest name

/-- The assignment `m[name] = handler`. -/
def HandlerMap.assign : HandlerMap → String → LogHandler → HandlerMap
  | [], name, handler => [(name, handler)]
  | (k, v) :: rest, name, handler =>
    if key_lt name k then (name, handler) :: (k, v) :: rest
    else if key_lt k name then (k, v) :: HandlerMap.assign rest name handler
    else (k, handler) :: rest

/-- The call `m.erase(m.find(name))` for a key that is present (and no change
for one that is not). -/
def HandlerMap.erase : HandlerMap → String → HandlerMap
  | [], _ => []
  | (k, v) :: rest, name => if k = name then rest else (k, v) :: HandlerMap.erase rest name

/-- The keys of the map, in order. -/
def HandlerMap.keys (m : HandlerMap) : List String :=
  m.map Prod.fst

/-! ### `Logger` -/

/-- The class `Logger`. -/
structure Logger where
  m_handlers : HandlerMap

/-- The registry the private constructor `Logger() = default` builds. -/
def Logger.init : Logger :=
  { m_handlers := [] }

/-- The method `Logger::add`. -/
def Logger.add (self : Logger) (name : String) (handler : Option LogHandler) :
    Outcome × Logger :=
  if name = "" then
    (.error (.invalid_argument "\x27name\x27 cannot be empty"), self)
  else
    match handler with
    | none => (.error (.invalid_argument "\x27handler\x27 cannot be a nullptr"), self)
    | some h =>
      match self.m_handlers.find name with
      | none => (.ok (), { m_handlers := self.m_handlers.assign name h })
      | some _ => (.ok (), self)

/-- The method `Logger::remove`. -/
def Logger.remove (self : Logger) (name : String) : Outcome × Logger :=
  match self.m_handlers.find name with
  | some _ => (.ok (), { m_handlers := self.m_handlers.erase name })
  | none => (.ok (), self)

/-- The method `Logger::get_handler`. -/
def Logger.get_handler (self : Logger) (name : String) : Option LogHandler :=
  match self.m_handlers.find name with
  | some handler => some handler
  | none => none

/-- The number of handlers the registry owns, `m_handlers.size()`. -/
def Logger.size (self : Logger) : Nat :=
  self.m_handlers.length

/-- The loop of `Logger::log` over the entries of the map, which a call that
raises leaves at once. -/
def Logger.log_loop (clock : Nat → utils.time_point) (message : String) (severity : log_level) :
    HandlerMap → World → Outcome × HandlerMap × World
  | [], w => (.ok (), [], w)
  | (name, handler) :: rest, w =>
    match handler.log clock w message severity with
    | (.error e, handler1, w1) => (.error e, (name, handler1) :: rest, w1)
    | (.ok _, handler1, w1) =>
      let r := Logger.log_loop clock message severity rest w1
      (r.1, (name, handler1) :: r.2.1, r.2.2)

/-- The private method `Logger::log`. -/
def Logger.log (clock : Nat → utils.time_point) (self : Logger) (w : World)
    (message : String) (severity : log_level) : Outcome × Logger × World :=
  let r := Logger.log_loop clock message severity self.m_handlers w
  (r.1, { m_handlers := r.2.1 }, r.2.2)

/-- The method `Logger::debug`. -/
def Logger.debug (clock : Nat → utils.time_point) (self : Logger) (w : World)
    (message : String) : Outcome × Logger × World :=
  self.log clock w message .debug

/-- The method `Logger::info`. -/
def Logger.info (clock : Nat → utils.time_point) (self : Logger) (w : World)
    (message : String) : Outcome × Logger × World :=
  self.log clock w message .info

/-- The method `Logger::warn`. -/
def Logger.warn (clock : Nat → utils.time_point) (self : Logger) (w : World)
    (message : String) : Outcome × Logger × World :=
  self.log clock w message .warning

/-- The method `Logger::error`. -/
def Logger.error (clock : Nat → utils.time_point) (self : Logger) (w : World)
    (message : String) : Outcome × Logger × World :=
  self.log clock w message .error

/-- The method `Logger::fatal`. -/
def Logger.fatal (clock : Nat → utils.time_point) (self : Logger) (w : World)
    (message : String) : Outcome × Logger × World :=
  self.log clock w message .fatal

/-- What holds of the map of every registry the program builds: the keys
are strictly increasing (so no name occurs twice), as in every `std::map`,
and no key is the empty string, since `Logger::add` refuses it. -/
def Logger.Inv (self : Logger) : Prop :=
  self.m_handlers.keys.Pairwise key_lt ∧ ∀ k ∈ self.m_handlers.keys, k ≠ ""

end logging

namespace logging

/-- The ordered severity scale as the specification writes it:
none < debug < info < warning < error < fatal. -/
def severity_scale : List log_level :=
  [.none, .debug, .info, .warning, .error, .fatal]

instance (self : Logger) : Decidable self.Inv :=
  inferInstanceAs (Decidable (_ ∧ _))

/-- Whether the handler is a `ConsoleHandler`. -/
def LogHandler.is_console (self : LogHandler) : Bool :=
  match self.strategy with
  | .ConsoleHandler => true
  | _ => false

/-- The line a handler of the repository writes for a message, on the
reading `now` of the clock (line terminator included). -/
def record (now : utils.time_point) (severity : log_level) (message : String) : String :=
  utils.timestamp now ++ " - (" ++ to_string severity ++ ")\t: " ++ message ++ "\n"

/-! ### Sample values -/

/-- A clock that starts on 30-10-2026 12:34:56 and advances by a microsecond
between two readings. -/
def demo_clock : Nat → utils.time_point :=
  fun k => { local_time := ⟨56, 34, 12, 30, 9, 126⟩, micros := 1793363696000000 + k }

/-- A console handler of verbosity `info`. -/
def demo_console : LogHandler :=
  { m_name := "console", m_level := .info, strategy := .ConsoleHandler }

/-- A file handler of verbosity `error` that has written nothing yet. -/
def demo_file : LogHandler :=
  { m_name := "file", m_level := .error,
    strategy := .FileHandler { path := "./logs/app.log", written := "" } }

/-- A registry holding the two handlers above. -/
def demo_registry : Logger :=
  { m_handlers := [("console", demo_console), ("file", demo_file)] }

/-- A handler of another class whose `log` always raises. -/
def demo_failing : LogHandler :=
  { m_name := "alarm", m_level := .debug,
    strategy := .Derived (fun _ _ _ => .error (.runtime_error "sink unavailable")) }

/-- A registry in which the raising handler comes first in key order. -/
def demo_failing_registry : Logger :=
  { m_handlers := [("alarm", demo_failing), ("file", demo_file)] }

/-- The world at the start: nothing written, no reading of the clock. -/
def demo_world : World :=
  { cout := "", ticks := 0 }

end logging

/-! ## `utils.h`: the two overloads of `reverse` -/

namespace utils

open logging (Exception)

/-- The constant `UINT32_MAX`. -/
def UINT32_MAX : Nat := 4294967295

/-- The `while (num > 0)` loop of `utils::reverse(const uint32_t)`, from the
values `reversed` and `num` at the loop head. `fuel` bounds the number of
iterations; `none` means it ran out. The arithmetic is that of `uint32_t`. -/
def reverse_loop : Nat → Nat → Nat → Option (Except Exception Nat)
  | 0, _, _ => none
  | fuel + 1, reversed, num =>
    if num > 0 then
      if reversed > (UINT32_MAX - num % 10) / 10 then
        some (.error (.domain_error "Reversed value cannot be represented as uint32_t"))
      else
        reverse_loop fuel ((reversed * 10 + num % 10) % 4294967296) (num / 10)
    else
      some (.ok reversed)

/-- The function `utils::reverse(const uint32_t val)`. A `uint32_t` has at
most ten decimal digits, so eleven visits of the loop head are enough. -/
def reverse (val : Nat) : Option (Except Exception Nat) :=
  if val = 0 then some (.ok 0)
  else reverse_loop 11 0 val

/-- The number that the decimal digits of `val` denote when written in
reverse order (leading zeros of the reversed string do not count). -/
def digit_reversal (val : Nat) : Nat :=
  Nat.ofDigits 10 (Nat.digits 10 val).reverse

/-- The function `std::isspace` on a `char`, in the default "C" locale:
space and the five characters from `\t` (9) to `\r` (13). -/
def isspace (c : Char) : Bool :=
  c.toNat = 32 || (9 ≤ c.toNat && c.toNat ≤ 13)

/-- The white-space characters as the specification lists them: space, `\t`,
`\n`, `\v`, `\f`, `\r`. -/
def white_space : List Char :=
  [Char.ofNat 32, Char.ofNat 9, Char.ofNat 10, Char.ofNat 11, Char.ofNat 12, Char.ofNat 13]

/-- The loop `for (it = src.rbegin(); it != src.rend(); ++it)` of
`utils::reverse(const std::string&)`: `n` characters are still to be visited,
the reverse iterator is at index `n - 1`, and `reversedStr` is what has been
pushed so far. -/
def reverse_string_loop (src : List Char) : Nat → List Char → List Char
  | 0, reversedStr => reversedStr
  | n + 1, reversedStr => reverse_string_loop src n (reversedStr ++ [src.getD n default])

/-- The function `utils::reverse(const std::string& src)`. -/
def reverse_string (src : String) : Except Exception String :=
  if src.data = [] then
    .error (.invalid_argument "Input string is empty")
  else if src.data.all isspace then
    .error (.invalid_argument "Input string contains only white-space characters")
  else
    .ok (String.mk (reverse_string_loop src.data src.data.length []))

end utils

namespace logging

/-! ### The file system and the constructors -/

/-- The part of the file system that the constructor of `FileHandler` reads
and changes. Paths are compared as strings. `denied` lists the paths the
system refuses to create or to open for writing, whatever the reason. -/
structure FileSystem where
  dirs : List String
  files : List (String × String)
  denied : List String
  deriving DecidableEq, Repr

/-- The call `std::filesystem::exists(p)`. -/
def FileSystem.path_exists (fs : FileSystem) (p : String) : Bool :=
  fs.dirs.contains p || (fs.files.map Prod.fst).contains p

/-- The content of the regular file at `p`, if there is one. -/
def FileSystem.read (fs : FileSystem) (p : String) : Option String :=
  fs.files.lookup p

/-- The file system in which the regular file at `p` holds `content`. -/
def FileSystem.store (fs : FileSystem) (p : String) (content : String) : FileSystem :=
  { fs with files := (p, content) :: fs.files.filter (fun e => e.1 ≠ p) }

/-- The call `std::filesystem::create_directory(p)`, which raises a
`filesystem_error` (a `std::runtime_error`) when the system refuses. -/
def FileSystem.create_directory (fs : FileSystem) (p : String) : Outcome × FileSystem :=
  if fs.denied.contains p then
    (.error (.runtime_error "filesystem error: cannot create directory"), fs)
  else
    (.ok (), { fs with dirs := p :: fs.dirs })

/-- The flags of `std::ios_base::openmode`. -/
inductive openflag where
  | app
  | ate
  | binary
  | in_
  | out
  | trunc
  deriving DecidableEq, Repr

/-- Whether opening with `mode | std::ios::out` keeps what the file holds: the
modes with `app` open as `fopen` does with "a" or "a+", those with `in` and
without `trunc` as with "r+", and all others, `out` and `out | ate` among
them, as with "w" or "w+", which truncate. The flag `ate` does not enter: it
only moves the position to the end once the file is open. -/
def openflag.keeps_content (mode : List openflag) : Bool :=
  mode.contains .app || (mode.contains .in_ && !mode.contains .trunc)

/-- The constructor `std::ofstream{path, mode}`: the stream, `none` when it
is not open afterwards, and the file system after the call. -/
def ofstream.open (fs : FileSystem) (path : String) (mode : List openflag) :
    Option ofstream × FileSystem :=
  if fs.denied.contains path || fs.dirs.contains path then (none, fs)
  else
    match fs.read path with
    | some _ =>
      if openflag.keeps_content mode then (some { path := path, written := "" }, fs)
      else (some { path := path, written := "" }, fs.store path "")
    | none =>
      if mode.contains .in_ && !mode.contains .app && !mode.contains .trunc then (none, fs)
      else (some { path := path, written := "" }, fs.store path "")

/-- The content of the file behind a stream that was opened at the end of its
file and is the only writer of it: what the file held right after the open
(in the file system `opened`), then what was written through the stream, every
line of which `std::endl` flushes. -/
def ofstream.file_content (self : ofstream) (opened : FileSystem) : String :=
  (opened.read self.path).getD "" ++ self.written

/-- The constructor `LogHandler::LogHandler(const HandlerMeta&)`: the members
`m_name` and `m_level`. -/
def LogHandler.ctor (metadata : HandlerMeta) : Except Exception (String × log_level) :=
  if metadata.name = "" then
    .error (.invalid_argument "\x27name\x27 cannot be an empty string")
  else
    .ok (metadata.name, metadata.level)

/-- The constructor `ConsoleHandler::ConsoleHandler(const HandlerMeta&)`. -/
def ConsoleHandler.ctor (metadata : HandlerMeta) : Except Exception LogHandler :=
  match LogHandler.ctor metadata with
  | .error e => .error e
  | .ok base => .ok { m_name := base.1, m_level := base.2, strategy := .ConsoleHandler }

/-- The constructor `FileHandler::FileHandler(directory, filename, metadata)`:
the handler or what was raised, and the file system after the call. -/
def FileHandler.ctor (fs : FileSystem) (directory filename : String)
    (metadata : HandlerMeta) : Except Exception LogHandler × FileSystem :=
  match LogHandler.ctor metadata with
  | .error e => (.error e, fs)
  | .ok base =>
    if directory = "" then
      (.error (.invalid_argument "\x27directory\x27 cannot be empty"), fs)
    else if filename = "" then
      (.error (.invalid_argument "\x27filename\x27 cannot be empty"), fs)
    else
      let log_dir := directory
      match (if !fs.path_exists log_dir then fs.create_directory log_dir else (.ok (), fs)) with
      | (.error e, fs1) => (.error e, fs1)
      | (.ok _, fs1) =>
        let log_file := log_dir ++ "/" ++ filename ++ ".log"
        match ofstream.open fs1 log_file [.out, .ate] with
        | (none, fs2) =>
          (.error (.domain_error ("failed to open the log file: \x27" ++ log_file ++ "\x27")),
            fs2)
        | (some m_fstream, fs2) =>
          (.ok { m_name := base.1, m_level := base.2, strategy := .FileHandler m_fstream }, fs2)

/-- The content of the file behind a `FileHandler`, in the sense of
`ofstream.file_content` (empty for a handler of another class). -/
def LogHandler.file_content (self : LogHandler) (opened : FileSystem) : String :=
  match self.strategy with
  | .FileHandler m_fstream => m_fstream.file_content opened
  | _ => ""

/-! ### Calls through the pointer that `get_handler` returns -/

/-- The map after the handler mapped to `name` has been changed in place. -/
def HandlerMap.update : HandlerMap → String → (LogHandler → LogHandler) → HandlerMap
  | [], _, _ => []
  | (k, v) :: rest, name, f =>
    if k = name then (k, f v) :: rest else (k, v) :: HandlerMap.update rest name f

/-- The registry after `set_level(level)` is called on the handler that
`get_handler(name)` points to: the pointer is to the handler the map owns. -/
def Logger.set_level (self : Logger) (name : String) (level : log_level) : Logger :=
  { m_handlers := self.m_handlers.update name (fun h => h.set_level level) }

/-- A file system with the directory `./logs` and an earlier log file in it. -/
def demo_fs : FileSystem :=
  { dirs := ["./logs"], files := [("./logs/app.log", "earlier line\n")], denied := [] }

/-! ### The course of a fan-out -/

/-- The entries that come before the entry of `name` in the order of the map,
which the loop of `Logger::log` visits before it. -/
def HandlerMap.before : HandlerMap → String → HandlerMap
  | [], _ => []
  | (k, v) :: rest, name => if k = name then [] else (k, v) :: HandlerMap.before rest name

/-- The fan-out of a message up to the handler registered as `name`: the
outcome of the loop over the handlers before it, and the world in which the
loop then calls that handler. -/
def Logger.world_before (clock : Nat → utils.time_point) (self : Logger) (w : World)
    (message : String) (severity : log_level) (name : String) : Outcome × World :=
  let r := Logger.log_loop clock message severity (self.m_handlers.before name) w
  (r.1, r.2.2)

theorem key_lt_irrefl (a : String) : ¬ key_lt a a :=
  lt_irrefl a.data

theorem key_eq_of_not_lt {a b : String} (h1 : ¬ key_lt a b) (h2 : ¬ key_lt b a) : a = b := by
  rcases lt_trichotomy a.data b.data with h | h | h
  · exact absurd h h1
  · exact String.ext h
  · exact absurd h h2

theorem HandlerMap.find_eq_none_iff (m : HandlerMap) (name : String) :
    m.find name = none ↔ name ∉ m.keys := by
  induction m with
  | nil => simp [HandlerMap.find, HandlerMap.keys]
  | cons p rest ih =>
    obtain ⟨k, v⟩ := p
    by_cases hk : k = name
    · simp [HandlerMap.find, HandlerMap.keys, hk]
    · have hk2 : ¬ name = k := fun h => hk h.symm
      simp only [HandlerMap.keys] at ih
      simp [HandlerMap.find, HandlerMap.keys, hk, hk2, ih]

theorem HandlerMap.find_assign_self (m : HandlerMap) (name : String) (h : LogHandler) :
    (m.assign name h).find name = some h := by
  induction m with
  | nil => simp [HandlerMap.assign, HandlerMap.find]
  | cons p rest ih =>
    obtain ⟨k, v⟩ := p
    unfold HandlerMap.assign
    by_cases h1 : key_lt name k
    · simp [h1, HandlerMap.find]
    · by_cases h2 : key_lt k name
      · have hk : k ≠ name := fun e => key_lt_irrefl name (e ▸ h2)
        simp [h1, h2, HandlerMap.find, hk, ih]
      · have hk : k = name := key_eq_of_not_lt h2 h1
        simp [h1, h2, HandlerMap.find, hk]

theorem HandlerMap.find_assign_other (m : HandlerMap) (name other : String) (h : LogHandler)
    (hne : other ≠ name) : (m.assign name h).find other = m.find other := by
  induction m with
  | nil => simp [HandlerMap.assign, HandlerMap.find, hne.symm]
  | cons p rest ih =>
    obtain ⟨k, v⟩ := p
    unfold HandlerMap.assign
    by_cases h1 : key_lt name k
    · simp [h1, HandlerMap.find, hne.symm]
    · by_cases h2 : key_lt k name
      · simp [h1, h2, HandlerMap.find, ih]
      · have hk : k = name := key_eq_of_not_lt h2 h1
        have hk2 : ¬ k = other := fun e => hne (e.symm.trans hk)
        simp [h1, h2, HandlerMap.find, hk2]

theorem HandlerMap.length_assign (m : HandlerMap) (name : String) (h : LogHandler)
    (hnew : m.find name = none) : (m.assign name h).length = m.length + 1 := by
  induction m with
  | nil => simp [HandlerMap.assign]
  | cons p rest ih =>
    obtain ⟨k, v⟩ := p
    have hk : ¬ k = name := by
      intro e
      simp [HandlerMap.find, e] at hnew
    have hrest : HandlerMap.find rest name = none := by
      simpa [HandlerMap.find, hk] using hnew
    unfold HandlerMap.assign
    by_cases h1 : key_lt name k
    · simp [h1]
    · by_cases h2 : key_lt k name
      · simp [h1, h2, ih hrest]
      · exact absurd (key_eq_of_not_lt h2 h1) hk

theorem HandlerMap.keys_assign_mem (m : HandlerMap) (name : String) (h : LogHandler)
    (x : String) (hx : x ∈ (m.assign name h).keys) : x = name ∨ x ∈ m.keys := by
  induction m with
  | nil => simpa [HandlerMap.assign, HandlerMap.keys] using hx
  | cons p rest ih =>
    obtain ⟨k, v⟩ := p
    unfold HandlerMap.assign at hx
    by_cases h1 : key_lt name k
    · simpa [h1, HandlerMap.keys] using hx
    · by_cases h2 : key_lt k name
      · simp only [h1, h2, if_true, if_false, HandlerMap.keys, List.map_cons,
          List.mem_cons] at hx ih ⊢
        rcases hx with hx | hx
        · exact Or.inr (Or.inl hx)
        · rcases ih hx with e | e
          · exact Or.inl e
          · exact Or.inr (Or.inr e)
      · right
        simpa [h1, h2, HandlerMap.keys] using hx

theorem HandlerMap.pairwise_assign (m : HandlerMap) (name : String) (h : LogHandler)
    (hs : m.keys.Pairwise key_lt) : (m.assign name h).keys.Pairwise key_lt := by
  induction m with
  | nil => simp [HandlerMap.assign, HandlerMap.keys]
  | cons p rest ih =>
    obtain ⟨k, v⟩ := p
    have hs2 : (∀ x ∈ HandlerMap.keys rest, key_lt k x) ∧ (HandlerMap.keys rest).Pairwise key_lt := by
      simpa [HandlerMap.keys, List.pairwise_cons] using hs
    unfold HandlerMap.assign
    by_cases h1 : key_lt name k
    · simp only [h1, if_true]
      show List.Pairwise key_lt (name :: k :: HandlerMap.keys rest)
      refine List.pairwise_cons.2 ⟨?_, hs⟩
      intro x hx
      rcases List.mem_cons.1 hx with e | e
      · exact e ▸ h1
      · exact lt_trans h1 (hs2.1 x e)
    · by_cases h2 : key_lt k name
      · simp only [h1, h2, if_true, if_false]
        show List.Pairwise key_lt (k :: HandlerMap.keys (HandlerMap.assign rest name h))
        refine List.pairwise_cons.2 ⟨?_, ih hs2.2⟩
        intro x hx
        rcases HandlerMap.keys_assign_mem rest name h x hx with e | e
        · exact e ▸ h2
        · exact hs2.1 x e
      · simp only [h1, h2, if_false]
        exact hs

theorem HandlerMap.find_erase_other (m : HandlerMap) (name other : String)
    (hne : other ≠ name) : (m.erase name).find other = m.find other := by
  induction m with
  | nil => simp [HandlerMap.erase]
  | cons p rest ih =>
    obtain ⟨k, v⟩ := p
    unfold HandlerMap.erase
    by_cases hk : k = name
    · have hk2 : ¬ k = other := fun e => hne (e.symm.trans hk)
      simp [hk, HandlerMap.find, hk2, hne.symm]
    · simp [hk, HandlerMap.find, ih]

theorem HandlerMap.erase_sublist (m : HandlerMap) (name : String) :
    (m.erase name).keys.Sublist m.keys := by
  induction m with
  | nil => simp [HandlerMap.erase]
  | cons p rest ih =>
    obtain ⟨k, v⟩ := p
    unfold HandlerMap.erase
    by_cases hk : k = name
    · simp [hk, HandlerMap.keys]
    · simp only [hk, if_false, HandlerMap.keys, List.map_cons]
      exact List.Sublist.cons₂ k ih

theorem HandlerMap.find_erase_self (m : HandlerMap) (name : String)
    (hs : m.keys.Pairwise key_lt) : (m.erase name).find name = none := by
  induction m with
  | nil => simp [HandlerMap.erase, HandlerMap.find]
  | cons p rest ih =>
    obtain ⟨k, v⟩ := p
    have hs2 : (∀ x ∈ HandlerMap.keys rest, key_lt k x) ∧ (HandlerMap.keys rest).Pairwise key_lt := by
      simpa [HandlerMap.keys, List.pairwise_cons] using hs
    unfold HandlerMap.erase
    by_cases hk : k = name
    · simp only [hk, if_true]
      rw [HandlerMap.find_eq_none_iff]
      intro hmem
      exact key_lt_irrefl name (hk ▸ hs2.1 name hmem)
    · simp [hk, HandlerMap.find, ih hs2.2]

theorem HandlerMap.length_erase (m : HandlerMap) (name : String) (h : LogHandler)
    (hreg : m.find name = some h) : (m.erase name).length + 1 = m.length := by
  induction m with
  | nil => simp [HandlerMap.find] at hreg
  | cons p rest ih =>
    obtain ⟨k, v⟩ := p
    unfold HandlerMap.erase
    by_cases hk : k = name
    · simp [hk]
    · have hrest : HandlerMap.find rest name = some h := by
        simpa [HandlerMap.find, hk] using hreg
      simp [hk, ih hrest]

end logging

namespace logging

/-! ## The severity filter -/

/-- C1: for every verbosity V and message severity S, `is_loggable V S` is
true exactly when V is not `none` and V is at most S on the scale
none < debug < info < warning < error < fatal. -/
theorem is_loggable_iff (V S : log_level) :
    is_loggable V S = true ↔
      (V ≠ log_level.none ∧ severity_scale.indexOf V ≤ severity_scale.indexOf S) := by
  cases V <;> cases S <;> decide

/-! ## The registry: `add`, `get_handler`, `remove` -/

/-- C2: in a registry of the program, adding a non-null handler under a name
that is already registered does not raise and changes nothing: the lookup of
that name still yields the handler registered first, the number of handlers
is the same and every name maps to the handler it mapped to before. -/
theorem add_registered_is_noop (r : Logger) (n : String) (h1 h2 : LogHandler)
    (hinv : r.Inv) (hreg : r.get_handler n = some h1) :
    (r.add n (some h2)).1 = .ok () ∧
      (r.add n (some h2)).2.m_handlers = r.m_handlers ∧
      (r.add n (some h2)).2.get_handler n = some h1 ∧
      (r.add n (some h2)).2.size = r.size ∧
      ∀ other, (r.add n (some h2)).2.get_handler other = r.get_handler other := by
  have hfind : r.m_handlers.find n = some h1 := by
    unfold Logger.get_handler at hreg
    cases hf : r.m_handlers.find n with
    | none => simp [hf] at hreg
    | some x => simpa [hf] using hreg
  have hmem : n ∈ r.m_handlers.keys := by
    by_contra hc
    rw [(HandlerMap.find_eq_none_iff r.m_handlers n).2 hc] at hfind
    exact Option.noConfusion hfind
  have hne : n ≠ "" := hinv.2 n hmem
  have hadd : r.add n (some h2) = (.ok (), r) := by
    simp [Logger.add, hne, hfind]
  rw [hadd]
  exact ⟨rfl, rfl, hreg, rfl, fun _ => rfl⟩

/-- C3: `Logger::add` raises exactly when the name is empty or the handler
is null, what it raises is `std::invalid_argument`, and a call that raises
leaves the registry as it was. -/
theorem add_raises_iff (r : Logger) (name : String) (handler : Option LogHandler) :
    (raised (r.add name handler).1 = true ↔ (name = "" ∨ handler = none)) ∧
      (raised (r.add name handler).1 = true →
        ∃ what, (r.add name handler).1 = .error (.invalid_argument what)) ∧
      (raised (r.add name handler).1 = true → (r.add name handler).2 = r) := by
  by_cases hn : name = ""
  · simp [Logger.add, hn, raised]
  · cases handler with
    | none => simp [Logger.add, hn, raised]
    | some h =>
      cases hf : r.m_handlers.find name <;> simp [Logger.add, hn, raised, hf]

/-- C4: `get_handler` yields nothing exactly for the names that are not
registered; and after `add` of a non-null handler h under a non-empty name n
that was not registered, which returns normally, the lookup of n yields h and
the lookup of every other name yields what it did before. -/
theorem get_handler_after_add (r : Logger) (n : String) (h : LogHandler)
    (hne : n ≠ "") (hnew : n ∉ r.m_handlers.keys) :
    (∀ x, r.get_handler x = none ↔ x ∉ r.m_handlers.keys) ∧
      (r.add n (some h)).1 = .ok () ∧
      (r.add n (some h)).2.get_handler n = some h ∧
      ∀ other, other ≠ n → (r.add n (some h)).2.get_handler other = r.get_handler other := by
  have hget : ∀ (s : Logger) (x : String), s.get_handler x = s.m_handlers.find x := by
    intro s x
    unfold Logger.get_handler
    cases s.m_handlers.find x <;> rfl
  have hfind : r.m_handlers.find n = none := (HandlerMap.find_eq_none_iff r.m_handlers n).2 hnew
  have hadd : r.add n (some h) = (.ok (), { m_handlers := r.m_handlers.assign n h }) := by
    simp [Logger.add, hne, hfind]
  rw [hadd]
  refine ⟨fun x => ?_, rfl, ?_, fun other ho => ?_⟩
  · rw [hget]
    exact HandlerMap.find_eq_none_iff r.m_handlers x
  · rw [hget]
    exact HandlerMap.find_assign_self r.m_handlers n h
  · rw [hget, hget]
    exact HandlerMap.find_assign_other r.m_handlers n other h ho

/-- C5: in a registry of the program `Logger::remove` never raises; for a
name that is not registered it changes nothing, and for a registered name the
lookup of that name yields nothing afterwards, the number of handlers drops by
exactly one and every other name maps to the handler it mapped to before. -/
theorem remove_spec (r : Logger) (n : String) (hinv : r.Inv) :
    (r.remove n).1 = .ok () ∧
      (r.get_handler n = none → (r.remove n).2.m_handlers = r.m_handlers) ∧
      (∀ h, r.get_handler n = some h →
        (r.remove n).2.get_handler n = none ∧
        (r.remove n).2.size + 1 = r.size ∧
        ∀ other, other ≠ n → (r.remove n).2.get_handler other = r.get_handler other) := by
  have hget : ∀ (s : Logger) (x : String), s.get_handler x = s.m_handlers.find x := by
    intro s x
    unfold Logger.get_handler
    cases s.m_handlers.find x <;> rfl
  cases hf : r.m_handlers.find n with
  | none =>
    have hrem : r.remove n = (.ok (), r) := by simp [Logger.remove, hf]
    rw [hrem]
    refine ⟨rfl, fun _ => rfl, fun h hh => ?_⟩
    rw [hget, hf] at hh
    exact Option.noConfusion hh
  | some v =>
    have hrem : r.remove n = (.ok (), { m_handlers := r.m_handlers.erase n }) := by
      simp [Logger.remove, hf]
    rw [hrem]
    refine ⟨rfl, fun hh => ?_, fun h _ => ⟨?_, ?_, fun other ho => ?_⟩⟩
    · rw [hget, hf] at hh
      exact Option.noConfusion hh
    · rw [hget]
      exact HandlerMap.find_erase_self r.m_handlers n hinv.1
    · exact HandlerMap.length_erase r.m_handlers n v hf
    · rw [hget, hget]
      exact HandlerMap.find_erase_other r.m_handlers n other ho

end logging

namespace logging

/-! ## The handlers: `ConsoleHandler::log`, `FileHandler::log` -/

/-- C6: for a ConsoleHandler or FileHandler, any message and any severity S,
`log` returns normally; when `is_loggable` of the handler's verbosity and S is
false the handler, the world and so the sink are unchanged, and when it is true
the sink afterwards is the sink before followed by exactly one record. A
handler of verbosity `error` so writes nothing for debug, info and warning
and one record each for error and fatal. -/
theorem log_filters_by_verbosity (clock : Nat → utils.time_point) (h : LogHandler) (w : World)
    (m : String) (hb : h.builtin = true) :
    (∀ S, (h.log clock w m S).1 = .ok ()) ∧
      (∀ S, is_loggable h.get_level S = false →
        (h.log clock w m S).2.1.strategy = h.strategy ∧ (h.log clock w m S).2.2 = w ∧
        (h.log clock w m S).2.1.sink (h.log clock w m S).2.2 = h.sink w) ∧
      (∀ S, is_loggable h.get_level S = true →
        (h.log clock w m S).2.1.sink (h.log clock w m S).2.2 =
          h.sink w ++ (utils.timestamp (clock w.ticks) ++ " - (" ++ to_string S ++ ")\t: "
            ++ m ++ "\n")) ∧
      (h.get_level = log_level.error →
        (∀ S, S ∈ [log_level.debug, log_level.info, log_level.warning] →
          (h.log clock w m S).2.1.sink (h.log clock w m S).2.2 = h.sink w) ∧
        (∀ S, S ∈ [log_level.error, log_level.fatal] →
          (h.log clock w m S).2.1.sink (h.log clock w m S).2.2 =
            h.sink w ++ (utils.timestamp (clock w.ticks) ++ " - (" ++ to_string S ++ ")\t: "
              ++ m ++ "\n"))) := by
  have hno : ∀ S, is_loggable h.get_level S = false →
      (h.log clock w m S).2.1.strategy = h.strategy ∧ (h.log clock w m S).2.2 = w ∧
      (h.log clock w m S).2.1.sink (h.log clock w m S).2.2 = h.sink w := by
    intro S hS
    obtain ⟨name, level, strategy⟩ := h
    cases strategy with
    | ConsoleHandler =>
      simp [LogHandler.log, ConsoleHandler.log, LogHandler.sink, hS]
    | FileHandler fs =>
      simp [LogHandler.log, FileHandler.log, LogHandler.sink, hS]
    | Derived f => simp [LogHandler.builtin] at hb
  have hyes : ∀ S, is_loggable h.get_level S = true →
      (h.log clock w m S).2.1.sink (h.log clock w m S).2.2 =
        h.sink w ++ (utils.timestamp (clock w.ticks) ++ " - (" ++ to_string S ++ ")\t: "
          ++ m ++ "\n") := by
    intro S hS
    obtain ⟨name, level, strategy⟩ := h
    cases strategy with
    | ConsoleHandler =>
      simp [LogHandler.log, ConsoleHandler.log, LogHandler.sink, hS, String.append_assoc]
    | FileHandler fs =>
      simp [LogHandler.log, FileHandler.log, LogHandler.sink, hS, String.append_assoc]
    | Derived f => simp [LogHandler.builtin] at hb
  refine ⟨fun S => ?_, hno, hyes, fun hlev => ⟨fun S hS => ?_, fun S hS => ?_⟩⟩
  · obtain ⟨name, level, strategy⟩ := h
    cases strategy with
    | ConsoleHandler => rfl
    | FileHandler fs => rfl
    | Derived f => simp [LogHandler.builtin] at hb
  · refine (hno S ?_).2.2
    rw [hlev]
    simp only [List.mem_cons, List.mem_singleton, List.mem_nil_iff, or_false] at hS
    rcases hS with e | e | e <;> subst e <;> rfl
  · refine hyes S ?_
    rw [hlev]
    simp only [List.mem_cons, List.mem_singleton, List.mem_nil_iff, or_false] at hS
    rcases hS with e | e <;> subst e <;> rfl

/-- C7: when a ConsoleHandler or a FileHandler emits a message m of severity
S and the clock supplies the time stamp t, the text appended to its sink is
exactly t, then " - (", the name of S, ")\t: ", m and a line terminator; the
two kinds of handler append the same text. -/
theorem emitted_line_format (clock : Nat → utils.time_point) (c f : LogHandler) (fs : ofstream)
    (w : World) (m : String) (S : log_level)
    (hc : is_loggable c.get_level S = true) (hf : is_loggable f.get_level S = true) :
    (ConsoleHandler.log clock c w m S).cout =
        w.cout ++ (utils.timestamp (clock w.ticks) ++ " - (" ++ to_string S ++ ")\t: "
          ++ m ++ "\n") ∧
      (FileHandler.log clock f fs w m S).1.written =
        fs.written ++ (utils.timestamp (clock w.ticks) ++ " - (" ++ to_string S ++ ")\t: "
          ++ m ++ "\n") := by
  constructor
  · simp [ConsoleHandler.log, hc, String.append_assoc]
  · simp [FileHandler.log, hf, String.append_assoc]

end logging

namespace logging

/-! ## The fan-out: `Logger::log` -/

theorem Logger.get_handler_eq_find (s : Logger) (x : String) :
    s.get_handler x = s.m_handlers.find x := by
  unfold Logger.get_handler
  cases s.m_handlers.find x <;> rfl

theorem Logger.log_loop_cons_ok (clock : Nat → utils.time_point) (m : String) (S : log_level)
    (name : String) (handler : LogHandler) (rest : HandlerMap) (w : World)
    (hok : (handler.log clock w m S).1 = .ok ()) :
    Logger.log_loop clock m S ((name, handler) :: rest) w =
      ((Logger.log_loop clock m S rest (handler.log clock w m S).2.2).1,
        (name, (handler.log clock w m S).2.1) ::
          (Logger.log_loop clock m S rest (handler.log clock w m S).2.2).2.1,
        (Logger.log_loop clock m S rest (handler.log clock w m S).2.2).2.2) := by
  rcases hlog : handler.log clock w m S with ⟨o, h1, w1⟩
  rw [hlog] at hok
  simp only at hok
  subst hok
  simp [Logger.log_loop, hlog]

theorem Logger.log_loop_cons_error (clock : Nat → utils.time_point) (m : String) (S : log_level)
    (name : String) (handler : LogHandler) (rest : HandlerMap) (w : World) (e : Exception)
    (herr : (handler.log clock w m S).1 = .error e) :
    Logger.log_loop clock m S ((name, handler) :: rest) w =
      (.error e, (name, (handler.log clock w m S).2.1) :: rest,
        (handler.log clock w m S).2.2) := by
  rcases hlog : handler.log clock w m S with ⟨o, h1, w1⟩
  rw [hlog] at herr
  simp only at herr
  subst herr
  simp [Logger.log_loop, hlog]

theorem Logger.log_loop_keys (clock : Nat → utils.time_point) (m : String) (S : log_level)
    (l : HandlerMap) : ∀ w : World, (Logger.log_loop clock m S l w).2.1.keys = l.keys := by
  induction l with
  | nil => intro w; rfl
  | cons p rest ih =>
    intro w
    obtain ⟨name, handler⟩ := p
    cases hout : (handler.log clock w m S).1 with
    | error e =>
      rw [Logger.log_loop_cons_error clock m S name handler rest w e hout]
      rfl
    | ok u =>
      rw [Logger.log_loop_cons_ok clock m S name handler rest w hout]
      simp only [HandlerMap.keys, List.map_cons] at ih ⊢
      rw [ih]

end logging

namespace logging

end logging

namespace logging

end logging

namespace logging

/-- C10, at two instants: 5 microseconds into a second the fractional field
is the single digit 5, and 123456 microseconds into it the six digits 123456;
neither is the three-digit millisecond field. -/
theorem timestamp_fraction_is_unpadded_microseconds :
    utils.timestamp { local_time := ⟨56, 34, 12, 30, 9, 126⟩, micros := 1793363696000005 } =
        "30-10-2026 12:34:56.5" ∧
      utils.timestamp { local_time := ⟨56, 34, 12, 30, 9, 126⟩, micros := 1793363696123456 } =
        "30-10-2026 12:34:56.123456" := by
  constructor <;> decide

/-! ## Instances on the sample values -/

/-- The sample registry: adding the console handler under the registered name
"file" leaves the map as it was. -/
theorem add_registered_is_noop_witness :
    demo_registry.Inv ∧ demo_registry.get_handler "file" = some demo_file ∧
      (demo_registry.add "file" (some demo_console)).2.m_handlers = demo_registry.m_handlers :=
  ⟨by decide, rfl,
    (add_registered_is_noop demo_registry "file" demo_file demo_console (by decide) rfl).2.1⟩

/-- The sample registry: after adding under the new name "audit" the lookup of
that name yields the handler added. -/
theorem get_handler_after_add_witness :
    "audit" ≠ "" ∧ "audit" ∉ demo_registry.m_handlers.keys ∧
      (demo_registry.add "audit" (some demo_console)).2.get_handler "audit" =
        some demo_console :=
  ⟨by decide, by decide,
    (get_handler_after_add demo_registry "audit" demo_console (by decide) (by decide)).2.2.1⟩

/-- The sample registry: removing "file" makes its lookup empty and the
registry one handler smaller. -/
theorem remove_spec_witness :
    demo_registry.Inv ∧ (demo_registry.remove "file").2.get_handler "file" = none ∧
      (demo_registry.remove "file").2.size + 1 = demo_registry.size :=
  ⟨by decide,
    ((remove_spec demo_registry "file" (by decide)).2.2 demo_file rfl).1,
    ((remove_spec demo_registry "file" (by decide)).2.2 demo_file rfl).2.1⟩

/-- The sample file handler: a message it does not admit leaves its stream as
it was. -/
theorem log_filters_by_verbosity_witness :
    demo_file.builtin = true ∧
      ∀ S, is_loggable demo_file.get_level S = false →
        (demo_file.log demo_clock demo_world "m" S).2.1.sink
          (demo_file.log demo_clock demo_world "m" S).2.2 = demo_file.sink demo_world :=
  ⟨rfl, fun S hS =>
    ((log_filters_by_verbosity demo_clock demo_file demo_world "m" rfl).2.1 S hS).2.2⟩

/-- The sample console handler: the line written for an error message. -/
theorem emitted_line_format_witness :
    is_loggable demo_console.get_level log_level.error = true ∧
      is_loggable demo_file.get_level log_level.error = true ∧
      (ConsoleHandler.log demo_clock demo_console demo_world "m" log_level.error).cout =
        demo_world.cout ++ (utils.timestamp (demo_clock demo_world.ticks) ++ " - (" ++
          to_string log_level.error ++ ")\t: " ++ "m" ++ "\n") :=
  ⟨rfl, rfl,
    (emitted_line_format demo_clock demo_console demo_file
      { path := "./logs/app.log", written := "" } demo_world "m" log_level.error rfl rfl).1⟩

end logging

namespace logging

/-! ## The invariant holds of every registry the program reaches -/

theorem Logger.Inv_init : Logger.init.Inv := by
  simp [Logger.Inv, Logger.init, HandlerMap.keys]

theorem Logger.Inv_add (r : Logger) (name : String) (handler : Option LogHandler)
    (hinv : r.Inv) : (r.add name handler).2.Inv := by
  by_cases hn : name = ""
  · simpa [Logger.add, hn] using hinv
  · cases handler with
    | none => simpa [Logger.add, hn] using hinv
    | some h =>
      cases hf : r.m_handlers.find name with
      | some v => simpa [Logger.add, hn, hf] using hinv
      | none =>
        have hadd : (r.add name (some h)).2 = { m_handlers := r.m_handlers.assign name h } := by
          simp [Logger.add, hn, hf]
        rw [hadd]
        refine ⟨HandlerMap.pairwise_assign r.m_handlers name h hinv.1, fun k hk => ?_⟩
        rcases HandlerMap.keys_assign_mem r.m_handlers name h k hk with e | e
        · exact e ▸ hn
        · exact hinv.2 k e

theorem Logger.Inv_remove (r : Logger) (name : String) (hinv : r.Inv) :
    (r.remove name).2.Inv := by
  cases hf : r.m_handlers.find name with
  | none => simpa [Logger.remove, hf] using hinv
  | some v =>
    have hrem : (r.remove name).2 = { m_handlers := r.m_handlers.erase name } := by
      simp [Logger.remove, hf]
    rw [hrem]
    exact ⟨List.Pairwise.sublist (HandlerMap.erase_sublist r.m_handlers name) hinv.1,
      fun k hk => hinv.2 k ((HandlerMap.erase_sublist r.m_handlers name).subset hk)⟩

theorem Logger.Inv_log (clock : Nat → utils.time_point) (r : Logger) (w : World) (m : String)
    (S : log_level) (hinv : r.Inv) : (r.log clock w m S).2.1.Inv := by
  have hk : (r.log clock w m S).2.1.m_handlers.keys = r.m_handlers.keys :=
    Logger.log_loop_keys clock m S r.m_handlers w
  unfold Logger.Inv
  rw [hk]
  exact hinv

end logging

namespace utils

open logging (Exception)

/-! ## `utils::reverse(const uint32_t)` -/

theorem foldl_digits_eq (L : List Nat) :
    ∀ a : Nat, L.foldl (fun acc d => acc * 10 + d) a =
      a * 10 ^ L.length + Nat.ofDigits 10 L.reverse := by
  induction L with
  | nil => intro a; simp
  | cons d L ih =>
    intro a
    simp only [List.foldl_cons, List.reverse_cons, List.length_cons]
    rw [ih, Nat.ofDigits_append, Nat.ofDigits_singleton, List.length_reverse]
    ring

theorem le_foldl_digits (L : List Nat) :
    ∀ a : Nat, a ≤ L.foldl (fun acc d => acc * 10 + d) a := by
  induction L with
  | nil => intro a; simp
  | cons d L ih =>
    intro a
    simp only [List.foldl_cons]
    exact le_trans (by omega) (ih (a * 10 + d))

theorem reverse_loop_spec :
    ∀ (fuel reversed num : Nat), num < 10 ^ fuel → reversed ≤ UINT32_MAX →
      reverse_loop (fuel + 1) reversed num =
        some (if (Nat.digits 10 num).foldl (fun acc d => acc * 10 + d) reversed ≤ UINT32_MAX
          then .ok ((Nat.digits 10 num).foldl (fun acc d => acc * 10 + d) reversed)
          else .error (.domain_error "Reversed value cannot be represented as uint32_t")) := by
  intro fuel
  induction fuel with
  | zero =>
    intro reversed num hnum hrev
    have h0 : num = 0 := by simpa using hnum
    subst h0
    simp [reverse_loop, hrev]
  | succ fuel ih =>
    intro reversed num hnum hrev
    by_cases h0 : num = 0
    · subst h0
      simp [reverse_loop, hrev]
    · have hpos : 0 < num := Nat.pos_of_ne_zero h0
      have hd : num % 10 < 10 := Nat.mod_lt _ (by decide)
      rw [Nat.digits_def' (by decide) hpos]
      simp only [List.foldl_cons]
      unfold reverse_loop
      simp only [gt_iff_lt, hpos, if_true]
      unfold UINT32_MAX at hrev ⊢
      by_cases hov : (4294967295 - num % 10) / 10 < reversed
      · have hbig : 4294967295 < reversed * 10 + num % 10 := by omega
        have hge := le_foldl_digits (Nat.digits 10 (num / 10)) (reversed * 10 + num % 10)
        have hnot : ¬ (List.foldl (fun acc d => acc * 10 + d) (reversed * 10 + num % 10)
            (Nat.digits 10 (num / 10)) ≤ 4294967295) := by omega
        simp only [hov, if_true, hnot, if_false]
      · have hfit : reversed * 10 + num % 10 ≤ 4294967295 := by omega
        have hmod : (reversed * 10 + num % 10) % 4294967296 = reversed * 10 + num % 10 :=
          Nat.mod_eq_of_lt (by omega)
        have hdiv : num / 10 < 10 ^ fuel := by
          rw [pow_succ] at hnum
          omega
        simp only [hov, if_false, hmod]
        have := ih (reversed * 10 + num % 10) (num / 10) hdiv (by unfold UINT32_MAX; exact hfit)
        unfold UINT32_MAX at this
        exact this

theorem reverse_eq (val : Nat) (hval : val < 4294967296) :
    reverse val =
      some (if digit_reversal val ≤ UINT32_MAX then .ok (digit_reversal val)
        else .error (.domain_error "Reversed value cannot be represented as uint32_t")) := by
  have hfold : (Nat.digits 10 val).foldl (fun acc d => acc * 10 + d) 0 = digit_reversal val := by
    rw [foldl_digits_eq]
    simp [digit_reversal]
  by_cases h0 : val = 0
  · subst h0
    simp [reverse, digit_reversal, UINT32_MAX]
  · have hlt : val < 10 ^ 10 := lt_trans hval (by norm_num)
    have := reverse_loop_spec 10 0 val hlt (by unfold UINT32_MAX; omega)
    rw [hfold] at this
    simp only [reverse, h0, if_false]
    exact this

end utils

namespace utils

open logging (Exception)

/-! ## `utils::reverse(const std::string&)` -/

theorem isspace_iff (c : Char) : isspace c = true ↔ c ∈ white_space := by
  constructor
  · intro h
    have hc : Char.ofNat c.toNat = c := Char.ofNat_toNat c
    simp only [isspace, Bool.or_eq_true, Bool.and_eq_true, decide_eq_true_eq] at h
    have hk : c.toNat = 32 ∨ c.toNat = 9 ∨ c.toNat = 10 ∨ c.toNat = 11 ∨ c.toNat = 12 ∨
        c.toNat = 13 := by omega
    rcases hk with e | e | e | e | e | e <;> rw [e] at hc <;> rw [← hc] <;> simp [white_space]
  · intro h
    simp only [white_space, List.mem_cons, List.mem_singleton, List.mem_nil_iff, or_false] at h
    rcases h with e | e | e | e | e | e <;> subst e <;> decide

theorem reverse_string_loop_eq (src : List Char) :
    ∀ (n : Nat) (acc : List Char), n ≤ src.length →
      reverse_string_loop src n acc = acc ++ (src.take n).reverse := by
  intro n
  induction n with
  | zero => intro acc _; simp [reverse_string_loop]
  | succ n ih =>
    intro acc hn
    have hlt : n < src.length := hn
    have htake : List.take (n + 1) src = List.take n src ++ [src.getD n default] := by
      rw [List.take_succ]
      simp [List.getD, List.getElem?_eq_getElem hlt]
    rw [reverse_string_loop, ih _ (Nat.le_of_lt hlt), htake]
    simp

theorem reverse_string_ok (s : String) (hne : s.data ≠ [])
    (hns : s.data.all isspace = false) :
    reverse_string s = .ok (String.mk s.data.reverse) := by
  unfold reverse_string
  rw [reverse_string_loop_eq s.data s.data.length [] (le_refl _), List.take_length]
  simp [hne, hns]

end utils

namespace utils

open logging (Exception)

/-- C15: for a 32-bit unsigned val whose digit reversal fits in 32 bits,
`reverse` returns that digit reversal; so 0, 5, 10, 191 and 12345 give 0, 5,
1, 191 and 54321. -/
theorem reverse_returns_digit_reversal (val : Nat) (hval : val < 4294967296)
    (hfit : digit_reversal val ≤ 4294967295) :
    reverse val = some (.ok (digit_reversal val)) ∧
      reverse 0 = some (.ok 0) ∧ reverse 5 = some (.ok 5) ∧ reverse 10 = some (.ok 1) ∧
      reverse 191 = some (.ok 191) ∧ reverse 12345 = some (.ok 54321) := by
  refine ⟨?_, rfl, rfl, rfl, rfl, rfl⟩
  rw [reverse_eq val hval]
  have : digit_reversal val ≤ UINT32_MAX := hfit
  simp [this]

/-- C16: on a 32-bit unsigned val, `reverse` terminates; it raises
`std::domain_error` exactly when the digit reversal of val exceeds
`UINT32_MAX`, whatever it returns is the digit reversal itself (never a value
wrapped modulo 2^32), and on 4294967295 it raises. -/
theorem reverse_raises_iff_overflow (val : Nat) (hval : val < 4294967296) :
    reverse val ≠ none ∧
      ((∃ what, reverse val = some (.error (.domain_error what))) ↔
        4294967295 < digit_reversal val) ∧
      (∀ e, reverse val = some (.error e) → ∃ what, e = .domain_error what) ∧
      (∀ x, reverse val = some (.ok x) → x = digit_reversal val ∧ x ≤ 4294967295) ∧
      (∃ what, reverse 4294967295 = some (.error (.domain_error what))) := by
  rw [reverse_eq val hval]
  unfold UINT32_MAX
  by_cases hfit : digit_reversal val ≤ 4294967295
  · simp only [hfit, if_true]
    refine ⟨by simp, ⟨?_, fun h => absurd hfit (not_le.2 h)⟩, ?_, ?_, ⟨_, rfl⟩⟩
    · rintro ⟨what, h⟩
      simp at h
    · intro e h
      simp at h
    · intro x h
      simp only [Option.some.injEq, Except.ok.injEq] at h
      subst h
      exact ⟨rfl, hfit⟩
  · simp only [hfit, if_false]
    refine ⟨by simp, ⟨fun _ => not_le.1 hfit, fun _ => ⟨_, rfl⟩⟩, ?_, ?_, ⟨_, rfl⟩⟩
    · intro e h
      simp only [Option.some.injEq, Except.error.injEq] at h
      exact ⟨_, h.symm⟩
    · intro x h
      simp at h

/-- An instance: 12345 is a 32-bit value whose digit reversal 54321 fits. -/
theorem reverse_returns_digit_reversal_witness :
    (12345 : Nat) < 4294967296 ∧ digit_reversal 12345 ≤ 4294967295 ∧
      reverse 12345 = some (.ok (digit_reversal 12345)) :=
  ⟨by decide, by simp [digit_reversal, Nat.ofDigits],
    (reverse_returns_digit_reversal 12345 (by decide)
      (by simp [digit_reversal, Nat.ofDigits])).1⟩

/-- An instance: 1000000009 is a 32-bit value; its digit reversal is
9000000001, and the call raises. -/
theorem reverse_raises_iff_overflow_witness :
    (1000000009 : Nat) < 4294967296 ∧
      ((∃ what, reverse 1000000009 = some (.error (.domain_error what))) ↔
        4294967295 < digit_reversal 1000000009) :=
  ⟨by decide, (reverse_raises_iff_overflow 1000000009 (by decide)).2.1⟩

end utils

namespace utils

open logging (Exception)

theorem all_isspace_iff (s : String) :
    s.data.all isspace = true ↔ ∀ c ∈ s.data, c ∈ white_space := by
  rw [List.all_eq_true]
  exact ⟨fun h c hc => (isspace_iff c).1 (h c hc), fun h c hc => (isspace_iff c).2 (h c hc)⟩

theorem data_eq_nil_iff (s : String) : s.data = [] ↔ s = "" :=
  ⟨fun h => String.ext h, fun h => by rw [h]⟩

/-- C13: `reverse` on a string raises `std::invalid_argument` exactly when
the string is empty or consists of white-space characters only (space, \t,
\n, \v, \f, \r); it raises nothing else, and on every other string it
returns. -/
theorem reverse_string_raises_iff (s : String) :
    ((∃ what, reverse_string s = .error (.invalid_argument what)) ↔
        (s = "" ∨ ∀ c ∈ s.data, c ∈ white_space)) ∧
      (∀ e, reverse_string s = .error e → ∃ what, e = .invalid_argument what) ∧
      (¬ (s = "" ∨ ∀ c ∈ s.data, c ∈ white_space) → ∃ r, reverse_string s = .ok r) := by
  by_cases hne : s.data = []
  · have hs : s = "" := (data_eq_nil_iff s).1 hne
    have hr : reverse_string s = .error (.invalid_argument "Input string is empty") := by
      simp [reverse_string, hne]
    rw [hr]
    refine ⟨⟨fun _ => Or.inl hs, fun _ => ⟨_, rfl⟩⟩, ?_, fun h => absurd (Or.inl hs) h⟩
    intro e h
    simp only [Except.error.injEq] at h
    exact ⟨_, h.symm⟩
  · have hs : ¬ s = "" := fun h => hne ((data_eq_nil_iff s).2 h)
    by_cases hall : s.data.all isspace = true
    · have hw := (all_isspace_iff s).1 hall
      have hr : reverse_string s =
          .error (.invalid_argument "Input string contains only white-space characters") := by
        simp only [reverse_string, hne, if_false, hall, if_true]
      rw [hr]
      refine ⟨⟨fun _ => Or.inr hw, fun _ => ⟨_, rfl⟩⟩, ?_, fun h => absurd (Or.inr hw) h⟩
      intro e h
      simp only [Except.error.injEq] at h
      exact ⟨_, h.symm⟩
    · have hw : ¬ ∀ c ∈ s.data, c ∈ white_space := fun h => hall ((all_isspace_iff s).2 h)
      have hfalse : s.data.all isspace = false := by simpa using hall
      rw [reverse_string_ok s hne hfalse]
      refine ⟨⟨?_, ?_⟩, ?_, fun _ => ⟨_, rfl⟩⟩
      · rintro ⟨what, h⟩
        exact Except.noConfusion h
      · rintro (h | h)
        · exact absurd h hs
        · exact absurd h hw
      · intro e h
        exact Except.noConfusion h

/-- C14: on a string that is neither empty nor white-space only, `reverse`
returns a string of the same length whose i-th character is the character of
the input at index len-1-i, that is the input read backwards; "hello world"
gives "dlrow olleh" and "bob" gives "bob". -/
theorem reverse_string_reverses (s : String) (hne : s ≠ "")
    (hns : ¬ ∀ c ∈ s.data, c ∈ white_space) :
    (∃ r, reverse_string s = .ok r ∧ r.length = s.length ∧
        (∀ i, i < s.length → r.data[i]? = s.data[s.length - 1 - i]?) ∧
        r.data = s.data.reverse) ∧
      reverse_string "hello world" = .ok "dlrow olleh" ∧
      reverse_string "bob" = .ok "bob" := by
  refine ⟨?_, rfl, rfl⟩
  have h1 : s.data ≠ [] := fun h => hne ((data_eq_nil_iff s).1 h)
  have h2 : s.data.all isspace = false := by
    by_contra hc
    exact hns ((all_isspace_iff s).1 (by simpa using hc))
  refine ⟨_, reverse_string_ok s h1 h2, ?_, ?_, rfl⟩
  · show s.data.reverse.length = s.data.length
    exact List.length_reverse _
  · intro i hi
    exact List.getElem?_reverse hi

/-- An instance: "book" is neither empty nor blank, and its reversal has the
same length. -/
theorem reverse_string_reverses_witness :
    "book" ≠ "" ∧ (¬ ∀ c ∈ "book".data, c ∈ white_space) ∧
      ∃ r, reverse_string "book" = .ok r ∧ r.length = "book".length ∧
        (∀ i, i < "book".length → r.data[i]? = "book".data["book".length - 1 - i]?) ∧
        r.data = "book".data.reverse :=
  ⟨by decide, by decide,
    (reverse_string_reverses "book" (by decide) (by decide)).1⟩

end utils

namespace logging

/-! ## What a call of `log` does to the sink -/

theorem append_record_ne (s : String) (now : utils.time_point) (S : log_level) (m : String) :
    s ++ record now S m ≠ s := by
  intro h
  have hl := congrArg String.length h
  simp only [record, String.length_append] at hl
  have h1 : "\n".length = 1 := by decide
  omega

theorem LogHandler.sink_after_log (clock : Nat → utils.time_point) (h : LogHandler) (w : World)
    (m : String) (S : log_level) (hb : h.builtin = true) :
    (h.log clock w m S).2.1.sink (h.log clock w m S).2.2 =
      (if is_loggable h.get_level S = true then h.sink w ++ record (clock w.ticks) S m
        else h.sink w) := by
  obtain ⟨name, level, strategy⟩ := h
  cases strategy with
  | ConsoleHandler =>
    by_cases hS : is_loggable level S = true
    · simp [LogHandler.log, ConsoleHandler.log, LogHandler.sink, LogHandler.get_level, record,
        hS, String.append_assoc]
    · simp [LogHandler.log, ConsoleHandler.log, LogHandler.sink, LogHandler.get_level, hS]
  | FileHandler fs =>
    by_cases hS : is_loggable level S = true
    · simp [LogHandler.log, FileHandler.log, LogHandler.sink, LogHandler.get_level, record,
        hS, String.append_assoc]
    · simp [LogHandler.log, FileHandler.log, LogHandler.sink, LogHandler.get_level, hS]
  | Derived f => simp [LogHandler.builtin] at hb

theorem LogHandler.sink_changes_iff (clock : Nat → utils.time_point) (h : LogHandler) (w : World)
    (m : String) (S : log_level) (hb : h.builtin = true) :
    (h.log clock w m S).2.1.sink (h.log clock w m S).2.2 ≠ h.sink w ↔
      is_loggable h.get_level S = true := by
  rw [LogHandler.sink_after_log clock h w m S hb]
  by_cases hS : is_loggable h.get_level S = true
  · simp only [hS, if_true, iff_true]
    exact append_record_ne _ _ _ _
  · simp [hS]

theorem HandlerMap.keys_update (l : HandlerMap) (n : String) (f : LogHandler → LogHandler) :
    (l.update n f).keys = l.keys := by
  induction l with
  | nil => simp [HandlerMap.update]
  | cons p rest ih =>
    obtain ⟨k, v⟩ := p
    unfold HandlerMap.update
    by_cases hk : k = n
    · simp [hk, HandlerMap.keys]
    · simp only [hk, if_false, HandlerMap.keys, List.map_cons] at ih ⊢
      rw [ih]

theorem HandlerMap.builtin_update (l : HandlerMap) (n : String) (f : LogHandler → LogHandler)
    (hf : ∀ h, (f h).builtin = h.builtin) (hb : ∀ p ∈ l, p.2.builtin = true) :
    ∀ p ∈ l.update n f, p.2.builtin = true := by
  induction l with
  | nil => simp [HandlerMap.update]
  | cons q rest ih =>
    obtain ⟨k, v⟩ := q
    have hv : v.builtin = true := hb (k, v) (List.mem_cons_self _ _)
    have hrest : ∀ p ∈ rest, p.2.builtin = true := fun p hp => hb p (List.mem_cons_of_mem _ hp)
    unfold HandlerMap.update
    by_cases hk : k = n
    · simp only [hk, if_true]
      intro p hp
      rcases List.mem_cons.1 hp with e | e
      · subst e
        simpa [hf] using hv
      · exact hrest p e
    · simp only [hk, if_false]
      intro p hp
      rcases List.mem_cons.1 hp with e | e
      · subst e
        exact hv
      · exact ih hrest p e

theorem Logger.Inv_set_level (r : Logger) (n : String) (L : log_level) (hinv : r.Inv) :
    (r.set_level n L).Inv := by
  unfold Logger.Inv Logger.set_level
  rw [HandlerMap.keys_update]
  exact hinv

end logging

namespace logging

/-! ## The constructors -/

theorem FileHandler.ctor_valid (fs : FileSystem) (directory filename : String)
    (metadata : HandlerMeta) (hn : metadata.name ≠ "") (hd : directory ≠ "")
    (hf : filename ≠ "") :
    (∃ what, (FileHandler.ctor fs directory filename metadata).1 =
        .error (.runtime_error what)) ∨
      (∃ what, (FileHandler.ctor fs directory filename metadata).1 =
        .error (.domain_error what)) ∨
      (∃ h, (FileHandler.ctor fs directory filename metadata).1 = .ok h ∧
        h.get_name = metadata.name ∧ h.get_level = metadata.level ∧
        h.file_content (FileHandler.ctor fs directory filename metadata).2 = "" ∧
        (FileHandler.ctor fs directory filename metadata).2.read
          (directory ++ "/" ++ filename ++ ".log") = some "") := by
  unfold FileHandler.ctor
  simp only [LogHandler.ctor, hn, hd, hf, if_false]
  rcases hdir : (if (!fs.path_exists directory) = true then fs.create_directory directory
      else (Except.ok (), fs)) with ⟨o, fs1⟩
  cases o with
  | error e =>
    left
    by_cases hex : (!fs.path_exists directory) = true
    · rw [if_pos hex] at hdir
      unfold FileSystem.create_directory at hdir
      by_cases hden : fs.denied.contains directory = true
      · rw [if_pos hden] at hdir
        simp only [Prod.mk.injEq, Except.error.injEq] at hdir
        exact ⟨_, by rw [← hdir.1]⟩
      · rw [if_neg hden] at hdir
        simp at hdir
    · rw [if_neg hex] at hdir
      simp at hdir
  | ok u =>
    right
    simp only
    have hkeep : openflag.keeps_content [openflag.out, openflag.ate] = false := by decide
    have hin : ([openflag.out, openflag.ate].contains openflag.in_ &&
        !([openflag.out, openflag.ate].contains openflag.app) &&
        !([openflag.out, openflag.ate].contains openflag.trunc)) = false := by decide
    unfold ofstream.open
    by_cases hbad : (fs1.denied.contains (directory ++ "/" ++ filename ++ ".log") ||
        fs1.dirs.contains (directory ++ "/" ++ filename ++ ".log")) = true
    · left
      rw [if_pos hbad]
      exact ⟨_, rfl⟩
    · right
      rw [if_neg hbad]
      cases hread : fs1.read (directory ++ "/" ++ filename ++ ".log") with
      | none =>
        simp only [hin, Bool.false_eq_true, if_false]
        refine ⟨_, rfl, rfl, rfl, ?_, ?_⟩ <;>
          simp [LogHandler.file_content, ofstream.file_content, FileSystem.read,
            FileSystem.store, List.lookup]
      | some c =>
        simp only [hkeep, Bool.false_eq_true, if_false]
        refine ⟨_, rfl, rfl, rfl, ?_, ?_⟩ <;>
          simp [LogHandler.file_content, ofstream.file_content, FileSystem.read,
            FileSystem.store, List.lookup]

end logging

namespace logging

/-- C11, at a file system whose log file holds an earlier line: constructing
a FileHandler on that file leaves the file empty, and after one emitted write
the file holds that line alone, not the earlier content followed by it. -/
theorem file_handler_open_discards_content :
    demo_fs.read "./logs/app.log" = some "earlier line\n" ∧
      (FileHandler.ctor demo_fs "./logs" "app" { name := "file", level := .debug }).2.read
        "./logs/app.log" = some "" ∧
      (FileHandler.ctor demo_fs "./logs" "app" { name := "file", level := .debug }).1.toOption.map
        (fun h => (h.log demo_clock demo_world "started" log_level.info).2.1.file_content
          (FileHandler.ctor demo_fs "./logs" "app" { name := "file", level := .debug }).2) =
        some "30-10-2026 12:34:56.0 - (INFO)\t: started\n" := by
  refine ⟨rfl, rfl, ?_⟩
  decide

/-- C12: the constructor of FileHandler raises `std::invalid_argument`
exactly when the name, the directory or the file name is empty, and then the
file system is as before (no directory created, no file opened); the
constructor of ConsoleHandler raises, and then `std::invalid_argument`,
exactly when the name is empty, and otherwise builds a handler whose
`get_name` and `get_level` are the name and the level given. -/
theorem constructors_reject_empty_fields (fs : FileSystem) (directory filename : String)
    (metadata : HandlerMeta) :
    ((∃ what, (FileHandler.ctor fs directory filename metadata).1 =
          .error (.invalid_argument what)) ↔
        (metadata.name = "" ∨ directory = "" ∨ filename = "")) ∧
      ((metadata.name = "" ∨ directory = "" ∨ filename = "") →
        (FileHandler.ctor fs directory filename metadata).2 = fs) ∧
      ((∃ e, ConsoleHandler.ctor metadata = .error e) ↔ metadata.name = "") ∧
      (∀ e, ConsoleHandler.ctor metadata = .error e → ∃ what, e = .invalid_argument what) ∧
      (metadata.name ≠ "" → ∃ h, ConsoleHandler.ctor metadata = .ok h ∧
        h.get_name = metadata.name ∧ h.get_level = metadata.level) := by
  have hconsole : ((∃ e, ConsoleHandler.ctor metadata = .error e) ↔ metadata.name = "") ∧
      (∀ e, ConsoleHandler.ctor metadata = .error e → ∃ what, e = .invalid_argument what) ∧
      (metadata.name ≠ "" → ∃ h, ConsoleHandler.ctor metadata = .ok h ∧
        h.get_name = metadata.name ∧ h.get_level = metadata.level) := by
    by_cases hn : metadata.name = ""
    · have hc : ConsoleHandler.ctor metadata =
          .error (.invalid_argument "\x27name\x27 cannot be an empty string") := by
        simp [ConsoleHandler.ctor, LogHandler.ctor, hn]
      rw [hc]
      refine ⟨⟨fun _ => hn, fun _ => ⟨_, rfl⟩⟩, ?_, fun h => absurd hn h⟩
      intro e he
      simp only [Except.error.injEq] at he
      exact ⟨_, he.symm⟩
    · have hc : ConsoleHandler.ctor metadata =
          .ok { m_name := metadata.name, m_level := metadata.level,
                strategy := .ConsoleHandler } := by
        simp [ConsoleHandler.ctor, LogHandler.ctor, hn]
      rw [hc]
      refine ⟨⟨?_, fun h => absurd h hn⟩, ?_, fun _ => ⟨_, rfl, rfl, rfl⟩⟩
      · rintro ⟨e, he⟩
        exact Except.noConfusion he
      · intro e he
        exact Except.noConfusion he
  refine ⟨?_, ?_, hconsole⟩
  · by_cases hn : metadata.name = ""
    · exact ⟨fun _ => Or.inl hn, fun _ => ⟨"\x27name\x27 cannot be an empty string",
        by simp [FileHandler.ctor, LogHandler.ctor, hn]⟩⟩
    · by_cases hd : directory = ""
      · exact ⟨fun _ => Or.inr (Or.inl hd),
          fun _ => ⟨"\x27directory\x27 cannot be empty",
            by simp [FileHandler.ctor, LogHandler.ctor, hn, hd]⟩⟩
      · by_cases hf : filename = ""
        · exact ⟨fun _ => Or.inr (Or.inr hf),
            fun _ => ⟨"\x27filename\x27 cannot be empty",
              by simp [FileHandler.ctor, LogHandler.ctor, hn, hd, hf]⟩⟩
        · constructor
          · rintro ⟨what, hw⟩
            rcases FileHandler.ctor_valid fs directory filename metadata hn hd hf with
              ⟨w2, h2⟩ | ⟨w2, h2⟩ | ⟨h, h2, _⟩
            · rw [h2] at hw
              simp at hw
            · rw [h2] at hw
              simp at hw
            · rw [h2] at hw
              exact Except.noConfusion hw
          · rintro (h | h | h)
            · exact absurd h hn
            · exact absurd h hd
            · exact absurd h hf
  · intro h
    by_cases hn : metadata.name = ""
    · simp [FileHandler.ctor, LogHandler.ctor, hn]
    · by_cases hd : directory = ""
      · simp [FileHandler.ctor, LogHandler.ctor, hn, hd]
      · have hf : filename = "" := by
          rcases h with h | h | h
          · exact absurd h hn
          · exact absurd h hd
          · exact h
        simp [FileHandler.ctor, LogHandler.ctor, hn, hd, hf]

/-- C17: `to_string` names debug, info, warning, error and fatal "DEBUG",
"INFO", "WARNING", "ERROR" and "FATAL" and gives the empty string for none;
a severity that some verbosity admits is never none and has one of the five
names, so a ConsoleHandler or FileHandler whose sink changes in a call of
`log` wrote one of the five names as the tag. -/
theorem to_string_names_emitted_levels :
    (to_string log_level.debug = "DEBUG" ∧ to_string log_level.info = "INFO" ∧
        to_string log_level.warning = "WARNING" ∧ to_string log_level.error = "ERROR" ∧
        to_string log_level.fatal = "FATAL" ∧ to_string log_level.none = "") ∧
      (∀ V S, is_loggable V S = true →
        S ≠ log_level.none ∧ to_string S ∈ ["DEBUG", "INFO", "WARNING", "ERROR", "FATAL"]) ∧
      (∀ (clock : Nat → utils.time_point) (h : LogHandler) (w : World) (m : String)
          (S : log_level), h.builtin = true →
        (h.log clock w m S).2.1.sink (h.log clock w m S).2.2 ≠ h.sink w →
        to_string S ∈ ["DEBUG", "INFO", "WARNING", "ERROR", "FATAL"]) := by
  have hadm : ∀ V S, is_loggable V S = true →
      S ≠ log_level.none ∧ to_string S ∈ ["DEBUG", "INFO", "WARNING", "ERROR", "FATAL"] := by
    intro V S
    cases V <;> cases S <;> decide
  refine ⟨⟨rfl, rfl, rfl, rfl, rfl, rfl⟩, hadm, ?_⟩
  intro clock h w m S hb hchg
  by_cases hS : is_loggable h.get_level S = true
  · exact (hadm _ _ hS).2
  · exact absurd ((LogHandler.sink_changes_iff clock h w m S hb).1 hchg) hS

/-- C20: `is_loggable` is monotone on the scale
none < debug < info < warning < error < fatal: a message admitted at
severity S is admitted at every severity above S, and a message admitted by a
verbosity is admitted by every lower verbosity other than none. -/
theorem is_loggable_monotone :
    (∀ V S S2, severity_scale.indexOf S ≤ severity_scale.indexOf S2 →
        is_loggable V S = true → is_loggable V S2 = true) ∧
      (∀ V V2 S, severity_scale.indexOf V ≤ severity_scale.indexOf V2 → V ≠ log_level.none →
        is_loggable V2 S = true → is_loggable V S = true) := by
  constructor
  · intro V S S2
    cases V <;> cases S <;> cases S2 <;> decide
  · intro V V2 S
    cases V <;> cases V2 <;> cases S <;> decide

/-- An instance: a message that verbosity warning admits at severity error
is admitted at fatal, and verbosity info admits it too. -/
theorem is_loggable_monotone_witness :
    is_loggable log_level.warning log_level.fatal = true ∧
      is_loggable log_level.info log_level.error = true :=
  ⟨is_loggable_monotone.1 log_level.warning log_level.error log_level.fatal (by decide) rfl,
    is_loggable_monotone.2 log_level.info log_level.warning log_level.error (by decide)
      (by decide) rfl⟩

end logging

namespace logging

/-- An instance: a name, a directory and a file name that are not empty do
not make the constructor raise `std::invalid_argument`, and an empty
directory does. -/
theorem constructors_reject_empty_fields_witness :
    (¬ ∃ what, (FileHandler.ctor demo_fs "./logs" "app" { name := "file", level := .debug }).1 =
        .error (.invalid_argument what)) ∧
      ∃ what, (FileHandler.ctor demo_fs "" "app" { name := "file", level := .debug }).1 =
        .error (.invalid_argument what) :=
  ⟨fun hx =>
      absurd ((constructors_reject_empty_fields demo_fs "./logs" "app"
        { name := "file", level := .debug }).1.1 hx) (by decide),
    (constructors_reject_empty_fields demo_fs "" "app"
      { name := "file", level := .debug }).1.2 (Or.inr (Or.inl rfl))⟩

/-- An instance: verbosity info admits severity error, whose name is one of
the five. -/
theorem to_string_names_emitted_levels_witness :
    is_loggable log_level.info log_level.error = true ∧
      to_string log_level.error ∈ ["DEBUG", "INFO", "WARNING", "ERROR", "FATAL"] :=
  ⟨rfl, (to_string_names_emitted_levels.2.1 log_level.info log_level.error rfl).2⟩

end logging

namespace utils

/-- An instance: a string of three spaces makes `reverse` raise. -/
theorem reverse_string_raises_iff_witness :
    ∃ what, reverse_string "   " = .error (.invalid_argument what) :=
  (reverse_string_raises_iff "   ").1.2 (Or.inr (by decide))

end utils

namespace utils

open logging (Exception)

/-! ## Reversing twice -/

theorem digit_reversal_involutive (n : Nat) (hn : n % 10 ≠ 0) :
    digit_reversal (digit_reversal n) = n := by
  have hpos : 0 < n := by
    rcases Nat.eq_zero_or_pos n with h | h
    · subst h
      simp at hn
    · exact h
  have hdig : Nat.digits 10 n = n % 10 :: Nat.digits 10 (n / 10) :=
    Nat.digits_def' (by decide) hpos
  have hvalid : Nat.digits 10 (Nat.ofDigits 10 (Nat.digits 10 n).reverse) =
      (Nat.digits 10 n).reverse := by
    apply Nat.digits_ofDigits 10 (by decide)
    · intro l hl
      exact Nat.digits_lt_base (by decide) (List.mem_reverse.1 hl)
    · intro hne
      rw [List.getLast_reverse]
      simp only [hdig, List.head_cons]
      exact hn
  unfold digit_reversal
  rw [hvalid, List.reverse_reverse, Nat.ofDigits_digits]

theorem digit_reversal_of_trailing_zero (n : Nat) (hpos : 0 < n) (h0 : n % 10 = 0) :
    digit_reversal n = digit_reversal (n / 10) := by
  unfold digit_reversal
  rw [Nat.digits_def' (by decide) hpos, h0, List.reverse_cons, Nat.ofDigits_append]
  simp

theorem digit_reversal_twice_le (n : Nat) : digit_reversal (digit_reversal n) ≤ n := by
  induction n using Nat.strong_induction_on with
  | _ n ih =>
    by_cases h0 : n % 10 = 0
    · rcases Nat.eq_zero_or_pos n with hz | hpos
      · subst hz
        simp [digit_reversal]
      · rw [digit_reversal_of_trailing_zero n hpos h0]
        have hlt : n / 10 < n := Nat.div_lt_self hpos (by decide)
        exact le_trans (ih (n / 10) hlt) (Nat.le_of_lt hlt)
    · exact le_of_eq (digit_reversal_involutive n h0)

theorem reverse_ok_eq (val x : Nat) (hval : val < 4294967296)
    (h : reverse val = some (.ok x)) : x = digit_reversal val ∧ x ≤ 4294967295 := by
  rw [reverse_eq val hval] at h
  unfold UINT32_MAX at h
  by_cases hfit : digit_reversal val ≤ 4294967295
  · simp only [hfit, if_true, Option.some.injEq, Except.ok.injEq] at h
    exact ⟨h.symm, h ▸ hfit⟩
  · simp [hfit] at h

/-- C21: for a 32-bit unsigned val that is not a multiple of 10 and on which
`reverse` returns, `reverse` also returns on the result, and gives back val;
for a non-zero multiple of 10 on which both calls return, the result of the
second call is strictly smaller than val. -/
theorem reverse_twice (val : Nat) (hval : val < 4294967296) :
    (val % 10 ≠ 0 → ∀ x, reverse val = some (.ok x) → reverse x = some (.ok val)) ∧
      (val ≠ 0 → val % 10 = 0 → ∀ x y, reverse val = some (.ok x) →
        reverse x = some (.ok y) → y < val) := by
  constructor
  · intro hnot x hx
    obtain ⟨hxe, hxle⟩ := reverse_ok_eq val x hval hx
    have hback : digit_reversal x = val := by
      rw [hxe]
      exact digit_reversal_involutive val hnot
    rw [reverse_eq x (by omega), hback]
    have : val ≤ UINT32_MAX := by
      unfold UINT32_MAX
      omega
    simp [this]
  · intro hne h0 x y hx hy
    obtain ⟨hxe, hxle⟩ := reverse_ok_eq val x hval hx
    obtain ⟨hye, _⟩ := reverse_ok_eq x y (by omega) hy
    have hpos : 0 < val := Nat.pos_of_ne_zero hne
    have hlt : val / 10 < val := Nat.div_lt_self hpos (by decide)
    rw [hye, hxe, digit_reversal_of_trailing_zero val hpos h0]
    exact lt_of_le_of_lt (digit_reversal_twice_le (val / 10)) hlt

/-- An instance: 12345 is reversed to 54321 and back to 12345, and 120 is
reversed to 21 and then to 12, which is smaller than 120. -/
theorem reverse_twice_witness :
    (12345 : Nat) < 4294967296 ∧ reverse 54321 = some (.ok 12345) ∧ (12 : Nat) < 120 :=
  ⟨by decide,
    (reverse_twice 12345 (by decide)).1 (by decide) 54321 rfl,
    (reverse_twice 120 (by decide)).2 (by decide) (by decide) 21 12 rfl rfl⟩

end utils

namespace logging

/-! ## The course of a fan-out -/

theorem LogHandler.log_world (clock : Nat → utils.time_point) (h : LogHandler) (w : World)
    (m : String) (S : log_level) :
    (h.log clock w m S).2.2.ticks =
        w.ticks + (if (h.builtin && is_loggable h.get_level S) = true then 1 else 0) ∧
      (h.log clock w m S).2.2.cout =
        (if (h.is_console && is_loggable h.get_level S) = true
          then w.cout ++ record (clock w.ticks) S m else w.cout) ∧
      (h.log clock w m S).2.1.builtin = h.builtin ∧
      (h.builtin = true → (h.log clock w m S).1 = .ok ()) := by
  obtain ⟨name, level, strategy⟩ := h
  cases strategy with
  | ConsoleHandler =>
    by_cases hS : is_loggable level S = true
    · simp [LogHandler.log, ConsoleHandler.log, LogHandler.get_level, LogHandler.is_console,
        LogHandler.builtin, record, hS, String.append_assoc]
    · simp [LogHandler.log, ConsoleHandler.log, LogHandler.get_level, LogHandler.is_console,
        LogHandler.builtin, hS]
  | FileHandler fs =>
    by_cases hS : is_loggable level S = true
    · simp [LogHandler.log, FileHandler.log, LogHandler.get_level, LogHandler.is_console,
        LogHandler.builtin, hS]
    · simp [LogHandler.log, FileHandler.log, LogHandler.get_level, LogHandler.is_console,
        LogHandler.builtin, hS]
  | Derived f =>
    simp [LogHandler.log, LogHandler.is_console, LogHandler.builtin]

theorem LogHandler.log_cout_grows (clock : Nat → utils.time_point) (h : LogHandler) (w : World)
    (m : String) (S : log_level) : ∃ sfx, (h.log clock w m S).2.2.cout = w.cout ++ sfx := by
  rw [(LogHandler.log_world clock h w m S).2.1]
  by_cases hc : (h.is_console && is_loggable h.get_level S) = true
  · exact ⟨record (clock w.ticks) S m, by simp only [hc, if_true]⟩
  · exact ⟨"", by simp [hc]⟩

theorem Logger.log_loop_cout_grows (clock : Nat → utils.time_point) (m : String) (S : log_level)
    (l : HandlerMap) :
    ∀ w : World, ∃ sfx, (Logger.log_loop clock m S l w).2.2.cout = w.cout ++ sfx := by
  induction l with
  | nil => intro w; exact ⟨"", by simp [Logger.log_loop]⟩
  | cons p rest ih =>
    intro w
    obtain ⟨name, handler⟩ := p
    obtain ⟨s1, hs1⟩ := LogHandler.log_cout_grows clock handler w m S
    cases hout : (handler.log clock w m S).1 with
    | error e =>
      rw [Logger.log_loop_cons_error clock m S name handler rest w e hout]
      exact ⟨s1, hs1⟩
    | ok u =>
      rw [Logger.log_loop_cons_ok clock m S name handler rest w hout]
      obtain ⟨s2, hs2⟩ := ih (handler.log clock w m S).2.2
      refine ⟨s1 ++ s2, ?_⟩
      show (Logger.log_loop clock m S rest (handler.log clock w m S).2.2).2.2.cout = _
      rw [hs2, hs1, String.append_assoc]

theorem Logger.log_loop_append (clock : Nat → utils.time_point) (m : String) (S : log_level)
    (pre rest : HandlerMap) :
    ∀ w : World, (Logger.log_loop clock m S pre w).1 = .ok () →
      Logger.log_loop clock m S (pre ++ rest) w =
        ((Logger.log_loop clock m S rest (Logger.log_loop clock m S pre w).2.2).1,
          (Logger.log_loop clock m S pre w).2.1 ++
            (Logger.log_loop clock m S rest (Logger.log_loop clock m S pre w).2.2).2.1,
          (Logger.log_loop clock m S rest (Logger.log_loop clock m S pre w).2.2).2.2) := by
  induction pre with
  | nil => intro w _; simp [Logger.log_loop]
  | cons p tl ih =>
    intro w hpre
    obtain ⟨name, handler⟩ := p
    cases hout : (handler.log clock w m S).1 with
    | error e =>
      rw [Logger.log_loop_cons_error clock m S name handler tl w e hout] at hpre
      exact Except.noConfusion hpre
    | ok u =>
      rw [Logger.log_loop_cons_ok clock m S name handler tl w hout] at hpre ⊢
      rw [List.cons_append, Logger.log_loop_cons_ok clock m S name handler _ w hout,
        ih (handler.log clock w m S).2.2 hpre]
      rfl

theorem HandlerMap.split_at (l : HandlerMap) (n : String) (h : LogHandler)
    (hf : l.find n = some h) :
    (∃ post, l = l.before n ++ (n, h) :: post) ∧ n ∉ (l.before n).keys := by
  induction l with
  | nil => simp [HandlerMap.find] at hf
  | cons p rest ih =>
    obtain ⟨k, v⟩ := p
    by_cases hk : k = n
    · have hv : v = h := by simpa [HandlerMap.find, hk] using hf
      subst hk
      subst hv
      exact ⟨⟨rest, by simp [HandlerMap.before]⟩, by simp [HandlerMap.before, HandlerMap.keys]⟩
    · have hrest : HandlerMap.find rest n = some h := by
        simpa [HandlerMap.find, hk] using hf
      obtain ⟨⟨post, hpost⟩, hnot⟩ := ih hrest
      refine ⟨⟨post, ?_⟩, ?_⟩
      · simp only [HandlerMap.before, hk, if_false, List.cons_append]
        rw [← hpost]
      · simp only [HandlerMap.before, hk, if_false, HandlerMap.keys, List.map_cons,
          List.mem_cons, not_or]
        exact ⟨fun e => hk e.symm, hnot⟩

theorem HandlerMap.find_append_of_not_mem (a b : HandlerMap) (n : String)
    (hn : n ∉ a.keys) : (a ++ b).find n = b.find n := by
  induction a with
  | nil => rfl
  | cons p rest ih =>
    obtain ⟨k, v⟩ := p
    have hk : ¬ k = n := by
      intro e
      apply hn
      simp [HandlerMap.keys, e]
    have hrest : n ∉ HandlerMap.keys rest := by
      intro e
      apply hn
      simp only [HandlerMap.keys, List.map_cons, List.mem_cons]
      exact Or.inr e
    simp [HandlerMap.find, hk, ih hrest]

theorem Logger.log_at (clock : Nat → utils.time_point) (r : Logger) (w : World) (m : String)
    (S : log_level) (n : String) (h : LogHandler) (hreg : r.get_handler n = some h)
    (hreach : (r.world_before clock w m S n).1 = .ok ()) :
    (r.log clock w m S).2.1.get_handler n =
        some (h.log clock (r.world_before clock w m S n).2 m S).2.1 ∧
      (∃ pfx, (r.world_before clock w m S n).2.cout = w.cout ++ pfx) ∧
      (∃ sfx, (r.log clock w m S).2.2.cout =
        (h.log clock (r.world_before clock w m S n).2 m S).2.2.cout ++ sfx) ∧
      ((h.log clock (r.world_before clock w m S n).2 m S).1 = .ok () →
        ∃ post, (r.log clock w m S).2.2 =
          (Logger.log_loop clock m S post
            (h.log clock (r.world_before clock w m S n).2 m S).2.2).2.2) := by
  have hfind : r.m_handlers.find n = some h := by
    rw [← Logger.get_handler_eq_find]
    exact hreg
  obtain ⟨⟨post, hsplit⟩, hnot⟩ := HandlerMap.split_at r.m_handlers n h hfind
  have hpre : (Logger.log_loop clock m S (r.m_handlers.before n) w).1 = .ok () := hreach
  have hnot2 : n ∉ (Logger.log_loop clock m S (r.m_handlers.before n) w).2.1.keys := by
    rw [Logger.log_loop_keys]
    exact hnot
  have hlog : r.log clock w m S =
      ((Logger.log_loop clock m S r.m_handlers w).1,
        { m_handlers := (Logger.log_loop clock m S r.m_handlers w).2.1 },
        (Logger.log_loop clock m S r.m_handlers w).2.2) := rfl
  have hwb : (r.world_before clock w m S n).2 =
      (Logger.log_loop clock m S (r.m_handlers.before n) w).2.2 := rfl
  rw [hlog, hwb, Logger.get_handler_eq_find]
  have happ := Logger.log_loop_append clock m S (r.m_handlers.before n) ((n, h) :: post) w hpre
  rw [← hsplit] at happ
  rw [happ]
  refine ⟨?_, Logger.log_loop_cout_grows clock m S _ w, ?_, ?_⟩
  · show HandlerMap.find (_ ++ _) n = _
    rw [HandlerMap.find_append_of_not_mem _ _ n hnot2]
    cases hout : (h.log clock (Logger.log_loop clock m S (r.m_handlers.before n) w).2.2 m S).1 with
    | error e =>
      rw [Logger.log_loop_cons_error clock m S n h post _ e hout]
      simp [HandlerMap.find]
    | ok u =>
      rw [Logger.log_loop_cons_ok clock m S n h post _ hout]
      simp [HandlerMap.find]
  · cases hout : (h.log clock (Logger.log_loop clock m S (r.m_handlers.before n) w).2.2 m S).1 with
    | error e =>
      rw [Logger.log_loop_cons_error clock m S n h post _ e hout]
      exact ⟨"", by simp⟩
    | ok u =>
      rw [Logger.log_loop_cons_ok clock m S n h post _ hout]
      exact Logger.log_loop_cout_grows clock m S post _
  · intro hout
    rw [Logger.log_loop_cons_ok clock m S n h post _ hout]
    exact ⟨post, rfl⟩

end logging

namespace logging

theorem HandlerMap.mem_of_mem_before (l : HandlerMap) (n : String) (p : String × LogHandler)
    (hp : p ∈ l.before n) : p ∈ l := by
  induction l with
  | nil => simp [HandlerMap.before] at hp
  | cons q rest ih =>
    obtain ⟨k, v⟩ := q
    by_cases hk : k = n
    · simp [HandlerMap.before, hk] at hp
    · simp only [HandlerMap.before, hk, if_false, List.mem_cons] at hp
      rcases hp with e | e
      · exact e ▸ List.mem_cons_self _ _
      · exact List.mem_cons_of_mem _ (ih e)

theorem Logger.log_loop_no_raise (clock : Nat → utils.time_point) (m : String) (S : log_level)
    (l : HandlerMap) :
    ∀ w : World, (∀ p ∈ l, ∀ w0 : World, (p.2.log clock w0 m S).1 = .ok ()) →
      (Logger.log_loop clock m S l w).1 = .ok () ∧
      (Logger.log_loop clock m S l w).2.2.ticks =
        w.ticks + (l.filter (fun p => p.2.builtin && is_loggable p.2.get_level S)).length ∧
      (∃ ks : List Nat,
        ks.length =
          (l.filter (fun p => p.2.is_console && is_loggable p.2.get_level S)).length ∧
        (∀ k ∈ ks, w.ticks ≤ k ∧ k < (Logger.log_loop clock m S l w).2.2.ticks) ∧
        (Logger.log_loop clock m S l w).2.2.cout =
          ks.foldl (fun out k => out ++ record (clock k) S m) w.cout) := by
  induction l with
  | nil =>
    intro w _
    exact ⟨rfl, by simp [Logger.log_loop], ⟨[], by simp [Logger.log_loop]⟩⟩
  | cons p rest ih =>
    intro w hok
    obtain ⟨name, handler⟩ := p
    have hokh : (handler.log clock w m S).1 = .ok () :=
      hok (name, handler) (List.mem_cons_self _ _) w
    have hokrest : ∀ q ∈ rest, ∀ w0 : World, (q.2.log clock w0 m S).1 = .ok () :=
      fun q hq => hok q (List.mem_cons_of_mem _ hq)
    obtain ⟨hticks, hcout, _, _⟩ := LogHandler.log_world clock handler w m S
    rw [Logger.log_loop_cons_ok clock m S name handler rest w hokh]
    obtain ⟨ih1, ih2, ks, ihk1, ihk2, ihk3⟩ := ih (handler.log clock w m S).2.2 hokrest
    refine ⟨ih1, ?_, ?_⟩
    · show (Logger.log_loop clock m S rest (handler.log clock w m S).2.2).2.2.ticks = _
      rw [ih2, hticks]
      by_cases hS : (handler.builtin && is_loggable handler.get_level S) = true
      · simp [List.filter, hS]
        omega
      · simp [List.filter, hS]
    · have hmono : w.ticks ≤ (handler.log clock w m S).2.2.ticks := by
        rw [hticks]
        omega
      by_cases hc : (handler.is_console && is_loggable handler.get_level S) = true
      · have hb1 : (handler.builtin && is_loggable handler.get_level S) = true := by
          simp only [Bool.and_eq_true] at hc ⊢
          refine ⟨?_, hc.2⟩
          obtain ⟨nm, lv, st⟩ := handler
          cases st <;> simp_all [LogHandler.is_console, LogHandler.builtin]
        refine ⟨w.ticks :: ks, ?_, ?_, ?_⟩
        · simp [List.filter, hc, ihk1]
        · intro k hk
          rcases List.mem_cons.1 hk with e | e
          · subst e
            refine ⟨le_refl _, ?_⟩
            show _ < (Logger.log_loop clock m S rest (handler.log clock w m S).2.2).2.2.ticks
            rw [ih2, hticks]
            simp only [hb1, if_true]
            omega
          · exact ⟨le_trans hmono (ihk2 k e).1, (ihk2 k e).2⟩
        · show (Logger.log_loop clock m S rest (handler.log clock w m S).2.2).2.2.cout = _
          rw [ihk3, hcout]
          simp [hc]
      · refine ⟨ks, ?_, ?_, ?_⟩
        · simp [List.filter, hc, ihk1]
        · intro k hk
          exact ⟨le_trans hmono (ihk2 k hk).1, (ihk2 k hk).2⟩
        · show (Logger.log_loop clock m S rest (handler.log clock w m S).2.2).2.2.cout = _
          rw [ihk3, hcout]
          simp [hc]

end logging

namespace logging

/-- C8, counterexample: in the registry whose first handler in key order
raises, `Logger::fatal` raises and leaves the FileHandler registered as
"file" and the world as they were, although that handler admits severity
fatal and one call of its `log` would have written a line: `log` was not
called on every registered handler. -/
theorem fan_out_misses_handler_after_raise :
    demo_failing_registry.Inv ∧
      demo_failing_registry.get_handler "file" = some demo_file ∧
      is_loggable demo_file.get_level log_level.fatal = true ∧
      raised (demo_failing_registry.fatal demo_clock demo_world "halt").1 = true ∧
      (demo_failing_registry.fatal demo_clock demo_world "halt").2.1.get_handler "file" =
        some demo_file ∧
      (demo_failing_registry.fatal demo_clock demo_world "halt").2.2 = demo_world ∧
      (demo_file.log demo_clock demo_world "halt" log_level.fatal).2.1.sink demo_world =
        "30-10-2026 12:34:56.0 - (FATAL)\t: halt\n" := by
  refine ⟨by decide, rfl, rfl, rfl, rfl, rfl, ?_⟩
  decide

/-- C8, as the code has it: `debug`, `info`, `warn`, `error` and `fatal` are
the fan-out with the severity debug, info, warning, error and fatal; and when
no registered handler's `log` raises on the message, as is the case of every
ConsoleHandler and FileHandler, the fan-out of a message m with severity S
returns normally, keeps the registered names, reaches every registered
handler and leaves it in the state that one call of its `log(m, S)` in the
world of that moment produces; a ConsoleHandler or FileHandler emits in that
call exactly when `is_loggable` holds of its verbosity and S, what it wrote
to the standard output stays in the output of the fan-out, the clock is read
once for each of them that emits, and the standard output receives one line
for each ConsoleHandler that emits. -/
theorem fan_out_logs_once_on_each (clock : Nat → utils.time_point) (r : Logger) (w : World)
    (m : String) (S : log_level)
    (hok : ∀ p ∈ r.m_handlers, ∀ w0 : World, (p.2.log clock w0 m S).1 = .ok ()) :
    (r.debug clock w m = r.log clock w m log_level.debug ∧
      r.info clock w m = r.log clock w m log_level.info ∧
      r.warn clock w m = r.log clock w m log_level.warning ∧
      r.error clock w m = r.log clock w m log_level.error ∧
      r.fatal clock w m = r.log clock w m log_level.fatal) ∧
    (∀ (h : LogHandler) (w0 : World), h.builtin = true → (h.log clock w0 m S).1 = .ok ()) ∧
    (r.log clock w m S).1 = .ok () ∧
    (r.log clock w m S).2.1.m_handlers.keys = r.m_handlers.keys ∧
    (∀ n h, r.get_handler n = some h →
      (r.world_before clock w m S n).1 = .ok () ∧
      (r.log clock w m S).2.1.get_handler n =
        some (h.log clock (r.world_before clock w m S n).2 m S).2.1 ∧
      (∃ sfx, (r.log clock w m S).2.2.cout =
        (h.log clock (r.world_before clock w m S n).2 m S).2.2.cout ++ sfx) ∧
      (h.builtin = true →
        ((h.log clock (r.world_before clock w m S n).2 m S).2.1.sink
            (h.log clock (r.world_before clock w m S n).2 m S).2.2 ≠
              h.sink (r.world_before clock w m S n).2 ↔
          is_loggable h.get_level S = true))) ∧
    (r.log clock w m S).2.2.ticks =
      w.ticks +
        (r.m_handlers.filter (fun p => p.2.builtin && is_loggable p.2.get_level S)).length ∧
    (∃ ks : List Nat,
      ks.length =
        (r.m_handlers.filter
          (fun p => p.2.is_console && is_loggable p.2.get_level S)).length ∧
      (∀ k ∈ ks, w.ticks ≤ k ∧ k < (r.log clock w m S).2.2.ticks) ∧
      (r.log clock w m S).2.2.cout =
        ks.foldl (fun out k => out ++ record (clock k) S m) w.cout) := by
  obtain ⟨h1, h2, h4⟩ := Logger.log_loop_no_raise clock m S r.m_handlers w hok
  refine ⟨⟨rfl, rfl, rfl, rfl, rfl⟩,
    fun h w0 hb => (LogHandler.log_world clock h w0 m S).2.2.2 hb, h1,
    Logger.log_loop_keys clock m S r.m_handlers w, ?_, h2, h4⟩
  intro n h hn
  have hreach : (r.world_before clock w m S n).1 = .ok () :=
    (Logger.log_loop_no_raise clock m S (r.m_handlers.before n) w
      (fun p hp => hok p (HandlerMap.mem_of_mem_before r.m_handlers n p hp))).1
  obtain ⟨a, _, c, _⟩ := Logger.log_at clock r w m S n h hn hreach
  exact ⟨hreach, a, c, fun hb => LogHandler.sink_changes_iff clock h _ m S hb⟩

/-- The sample registry: neither handler raises, and an error message is
emitted by both, with two readings of the clock. -/
theorem fan_out_logs_once_on_each_witness :
    (∀ p ∈ demo_registry.m_handlers, ∀ w0 : World,
        (p.2.log demo_clock w0 "m" log_level.error).1 = .ok ()) ∧
      (demo_registry.log demo_clock demo_world "m" log_level.error).1 = .ok () ∧
      (demo_registry.log demo_clock demo_world "m" log_level.error).2.2.ticks = 2 :=
  ⟨fun p hp w0 => by
      simp only [demo_registry, List.mem_cons, List.mem_singleton, List.mem_nil_iff,
        or_false] at hp
      rcases hp with e | e <;> subst e <;> rfl,
    (fan_out_logs_once_on_each demo_clock demo_registry demo_world "m" log_level.error
      (fun p hp w0 => by
        simp only [demo_registry, List.mem_cons, List.mem_singleton, List.mem_nil_iff,
          or_false] at hp
        rcases hp with e | e <;> subst e <;> rfl)).2.2.1,
    (fan_out_logs_once_on_each demo_clock demo_registry demo_world "m" log_level.error
      (fun p hp w0 => by
        simp only [demo_registry, List.mem_cons, List.mem_singleton, List.mem_nil_iff,
          or_false] at hp
        rcases hp with e | e <;> subst e <;> rfl)).2.2.2.2.2.1⟩

end logging

namespace logging

end logging
